import Mathlib

/-!
# Object-file abstraction core (`backend.c`)

A shallow embedding of the backend registry and of the symbol-table,
section-table and import-table operations of `backend.c`, with theorems about
them.

Conventions of the embedding

* `unsigned long` is a natural number reduced modulo `2 ^ 64` after every
  arithmetic step, `unsigned int` modulo `2 ^ 32`.
* A heap record carries its own address in the field `ptr`; two records are
  the same entry exactly when their `ptr` agree (the C code compares
  pointers).
* A `linked_list` is the list of its entries in sequence order.  A
  `list_node*` cursor stored on the object is the remainder of the list that
  starts at that node, `[]` standing for `NULL`; a node handed to
  `ll_insert` is given by its position.  Such a cursor stands for the node of
  the code as long as the table is not changed between the iterator calls;
  no theorem below changes a table between two calls of one iteration.
* A function that may dereference `NULL` or call through a null function
  pointer returns `Option`: `none` is the undefined behaviour, `some r` is a
  normal return.
* Counters and results of type `unsigned int` are reduced modulo `2 ^ 32`; the
  increment of an `int` counter at `INT_MAX` is undefined behaviour.  Theorems
  about counts and positions say how long the table may be.
-/

namespace Backend

/-! ## Machine arithmetic -/

/-- Number of values of an `unsigned long`. -/
def ULONG : Nat := 2 ^ 64

/-- Number of values of an `unsigned int`. -/
def UINT : Nat := 2 ^ 32

/-- Sum of two `unsigned long`. -/
def uadd (a b : Nat) : Nat := (a + b) % ULONG

/-- Difference of two `unsigned long` (wraps below zero). -/
def usub (a b : Nat) : Nat := (a + (ULONG - b % ULONG)) % ULONG

/-- Conversion of an `unsigned long` to `unsigned int`. -/
def to_uint (a : Nat) : Nat := a % UINT

/-- Lexicographic comparison of two character sequences, with the sign
convention of `strcmp`. -/
def strcmp_chars : List Char → List Char → Int
  | [], [] => 0
  | [], _ :: _ => -1
  | _ :: _, [] => 1
  | a :: as, b :: bs =>
    if a.toNat < b.toNat then -1
    else if b.toNat < a.toNat then 1
    else strcmp_chars as bs

/-- Model of libc `strcmp`: zero exactly on equal strings, otherwise the sign
of the lexicographic comparison. -/
def strcmp (a b : String) : Int := strcmp_chars a.data b.data

/-! ## Data model -/

/-- Modelled from the spec: the enum `backend_symbol_type` of `backend.h`
(which is not part of the sources at hand), the closed set
NONE, FILE, SECTION, FUNCTION, OBJECT. -/
inductive backend_symbol_type where
  | SYMBOL_TYPE_NONE
  | SYMBOL_TYPE_FILE
  | SYMBOL_TYPE_SECTION
  | SYMBOL_TYPE_FUNCTION
  | SYMBOL_TYPE_OBJECT
  deriving DecidableEq, Repr

/-- Modelled from the spec: the record `backend_symbol` of `backend.h`, with
the fields `backend_add_symbol` assigns.  `ptr` is the address of the record,
`sec` the weak `section` pointer, `src` the optional source file. -/
structure backend_symbol where
  ptr : Nat
  name : String
  val : Nat
  type : backend_symbol_type
  size : Nat
  flags : Nat
  sec : Option Nat
  src : Option String
  deriving DecidableEq, Repr

/-- Modelled from the spec: the record `backend_import` of `backend.h`: a
module name and its sequence of imported symbols, absent until the first
`backend_add_import_function`. -/
structure backend_import where
  name : String
  symbols : Option (List backend_symbol)
  deriving DecidableEq, Repr

/-- Modelled from the spec: the enum `backend_type` of `backend.h`, the closed
set of format tags NONE, MZ, PE, ELF32, ELF64. -/
inductive backend_type where
  | OBJECT_TYPE_NONE
  | OBJECT_TYPE_MZ
  | OBJECT_TYPE_PE
  | OBJECT_TYPE_ELF32
  | OBJECT_TYPE_ELF64
  deriving DecidableEq, Repr

/-- Modelled from the spec: the record `backend_section` of `backend.h`, with
the fields `backend_add_section` and the setters assign.  `ptr` is the address
of the record, `type` the value of the enum `backend_section_type`, `data` the
byte buffer and `strtab` the weak pointer to the string table section. -/
structure backend_section where
  ptr : Nat
  name : String
  type : Nat
  index : Nat
  size : Nat
  address : Nat
  flags : Nat
  entry_size : Nat
  alignment : Nat
  data : Option (List Nat)
  strtab : Option Nat
  deriving DecidableEq, Repr

/-- Modelled from the spec: the part of `backend_object` (`backend.h`) that the
operations below use: the file name and format tag, the tables of symbols,
sections and imports, each absent until first use, and the cursors of the
iterations. -/
structure backend_object where
  symbol_table : Option (List backend_symbol) := none
  import_table : Option (List backend_import) := none
  iter_import_table : List backend_import := []
  iter_import_symbol : List backend_symbol := []
  name : Option String := none
  type : backend_type := backend_type.OBJECT_TYPE_NONE
  section_table : Option (List backend_section) := none
  iter_symbol_t : List backend_symbol := []
  iter_section : List backend_section := []
  iter_symbol : List backend_symbol := []
  deriving DecidableEq, Repr

/-- Modelled from the spec: the descriptor `backend_ops` of `backend.h`, the
capability set name, format, read, write.  `none` is a null function pointer.
A callback without arguments is given by the value it returns; `read` maps a
file name to the object it builds or to `NULL`, `write` maps an object and a
file name (possibly `NULL`) to its return code. -/
structure backend_ops where
  name : Option String
  format : Option backend_type
  read : Option (String → Option backend_object)
  write : Option (backend_object → Option String → Int)

/-! ## The ordered sequence primitive (`ll.h`) -/

/-- Modelled from the spec: `ll_iter_start` of `ll.h`, the first node of the
sequence; `NULL` for an empty sequence, and taken to be `NULL` for an absent
one as well (the spec has the query operations return null on an absent
table). -/
def ll_iter_start {α : Type} (ll : Option (List α)) : List α :=
  match ll with
  | none => []
  | some l => l

/-- Modelled from the spec: `ll_add` of `ll.h`, append at the end. -/
def ll_add {α : Type} (ll : List α) (v : α) : List α := ll ++ [v]

/-- Modelled from the spec: `ll_push` of `ll.h`, push at the front. -/
def ll_push {α : Type} (ll : List α) (v : α) : List α := v :: ll

/-- Modelled from the spec: `ll_insert` of `ll.h`, insert right after the node
at position `node`. -/
def ll_insert {α : Type} (ll : List α) (node : Nat) (v : α) : List α :=
  ll.take (node + 1) ++ v :: ll.drop (node + 1)

/-- Modelled from the spec: `ll_remove` of `ll.h`, first-match removal by key:
the first entry on which the comparator returns zero is unlinked and handed
back; without a match the sequence is unchanged and the result is `NULL`. -/
def ll_remove {α κ : Type} (cmp : α → κ → Int) (key : κ) :
    List α → Option α × List α
  | [] => (none, [])
  | x :: rest =>
    if cmp x key = 0 then (some x, rest)
    else ((ll_remove cmp key rest).1, x :: (ll_remove cmp key rest).2)

/-- Modelled from the spec: `ll_size` of `ll.h`. -/
def ll_size {α : Type} (ll : List α) : Nat := ll.length

/-- The comparator `cmp_by_name`: `strcmp` of the entry name with the key. -/
def cmp_by_name (s : backend_symbol) (name : String) : Int :=
  strcmp s.name name

/-- The store `p->size = v` through a symbol pointer `p`. -/
def store_size (tbl : List backend_symbol) (p : Nat) (v : Nat) : List backend_symbol :=
  tbl.map (fun s => if s.ptr = p then { s with size := v } else s)

/-- The record a symbol pointer refers to, when it is an entry of the table. -/
def deref (tbl : List backend_symbol) (p : Nat) : Option backend_symbol :=
  tbl.find? (fun s => s.ptr = p)

/-! ## `backend_find_nearest_symbol` -/

/-- The loop of `backend_find_nearest_symbol`, from the node `iter` on, with
the current `prevbs`. -/
def find_nearest_loop (val : Nat) :
    List backend_symbol → Option backend_symbol → Option backend_symbol
  | [], _ => none
  | bs :: rest, prevbs =>
    if bs.val > val then prevbs else find_nearest_loop val rest (some bs)

/-- The function `backend_find_nearest_symbol`. -/
def backend_find_nearest_symbol (obj : Option backend_object) (val : Nat) :
    Option backend_symbol :=
  match obj with
  | none => none
  | some o =>
    match o.symbol_table with
    | none => none
    | some tbl => find_nearest_loop val (ll_iter_start (some tbl)) none

/-! ## `backend_get_first_import`, `backend_get_next_import` -/

/-- The function `backend_get_first_import`: the returned symbol and the object
with its cursors updated. -/
def backend_get_first_import (obj : backend_object) :
    Option backend_symbol × backend_object :=
  match obj.import_table with
  | none => (none, obj)
  | some tbl =>
    let obj1 := { obj with iter_import_table := ll_iter_start (some tbl) }
    match obj1.iter_import_table with
    | [] => (none, obj1)
    | i :: _ =>
      let obj2 := { obj1 with iter_import_symbol := ll_iter_start i.symbols }
      match obj2.iter_import_symbol with
      | [] => (none, obj2)
      | s :: _ => (some s, obj2)

/-- The function `backend_get_next_import`.  `none` is the dereference of a
`NULL` cursor. -/
def backend_get_next_import (obj : backend_object) :
    Option (Option backend_symbol × backend_object) :=
  match obj.import_table with
  | none => some (none, obj)
  | some _ =>
    match obj.iter_import_symbol with
    | [] => none
    | _ :: next =>
      let obj1 := { obj with iter_import_symbol := next }
      match next with
      | s :: _ => some (some s, obj1)
      | [] =>
        match obj1.iter_import_table with
        | [] => none
        | _ :: mnext =>
          let obj2 := { obj1 with iter_import_table := mnext }
          match mnext with
          | [] => some (none, obj2)
          | i :: _ =>
            let obj3 := { obj2 with iter_import_symbol := ll_iter_start i.symbols }
            match obj3.iter_import_symbol with
            | [] => some (none, obj3)
            | s :: _ => some (some s, obj3)

/-! ## `backend_symbol_count`, `backend_find_symbol_by_name`, `backend_find_symbol_by_val` -/

/-- The function `backend_symbol_count`: the size of the table as the
`unsigned int` the function returns. -/
def backend_symbol_count (obj : Option backend_object) : Nat :=
  match obj with
  | none => 0
  | some o =>
    match o.symbol_table with
    | none => 0
    | some tbl => to_uint (ll_size tbl)

/-- The loop of `backend_find_symbol_by_name` (entry names are never `NULL`
in the model). -/
def find_symbol_by_name_loop (name : String) :
    List backend_symbol → Option backend_symbol
  | [] => none
  | bs :: rest =>
    if strcmp bs.name name = 0 then some bs else find_symbol_by_name_loop name rest

/-- The function `backend_find_symbol_by_name`. -/
def backend_find_symbol_by_name (obj : Option backend_object) (name : String) :
    Option backend_symbol :=
  match obj with
  | none => none
  | some o =>
    match o.symbol_table with
    | none => none
    | some tbl => find_symbol_by_name_loop name (ll_iter_start (some tbl))

/-- The test of `backend_find_symbol_by_val` on one entry:
`(bs->size == 0 && val == bs->val) || (val >= bs->val && val < (bs->val + bs->size))`. -/
def symbol_holds_val (bs : backend_symbol) (val : Nat) : Bool :=
  (bs.size == 0 && val == bs.val) ||
    (decide (val ≥ bs.val) && decide (val < uadd bs.val bs.size))

/-- The loop of `backend_find_symbol_by_val`. -/
def find_symbol_by_val_loop (val : Nat) :
    List backend_symbol → Option backend_symbol
  | [] => none
  | bs :: rest =>
    if symbol_holds_val bs val then some bs else find_symbol_by_val_loop val rest

/-- The function `backend_find_symbol_by_val`. -/
def backend_find_symbol_by_val (obj : Option backend_object) (val : Nat) :
    Option backend_symbol :=
  match obj with
  | none => none
  | some o =>
    match o.symbol_table with
    | none => none
    | some tbl => find_symbol_by_val_loop val (ll_iter_start (some tbl))

/-! ## `backend_merge_symbol` -/

/-- The loop of `backend_merge_symbol` over the table `tbl`, from the node
`iter` on, with the current `prev`.  The result is the returned pointer and the
table after the call. -/
def merge_symbol_loop (tbl : List backend_symbol) (sym : Nat) :
    List backend_symbol → Option backend_symbol → Option Nat × List backend_symbol
  | [], _ => (none, tbl)
  | e :: rest, prev =>
    if e.ptr = sym then
      match prev with
      | none => (some sym, tbl)
      | some p =>
        let tbl1 := store_size tbl p.ptr (usub (uadd e.val e.size) p.val)
        (some p.ptr, (ll_remove cmp_by_name e.name tbl1).2)
    else merge_symbol_loop tbl sym rest (some e)

/-- The function `backend_merge_symbol`; `sym` is the pointer passed in.  The
result is the returned pointer (`none` for `NULL`) and the object after the
call.  The entry unlinked by `ll_remove` is freed, so it is gone from the
model. -/
def backend_merge_symbol (obj : Option backend_object) (sym : Nat) :
    Option Nat × Option backend_object :=
  match obj with
  | none => (none, none)
  | some o =>
    match o.symbol_table with
    | none => (none, some o)
    | some tbl =>
      let r := merge_symbol_loop tbl sym (ll_iter_start (some tbl)) none
      (r.1, some { o with symbol_table := some r.2 })

/-! ## `backend_split_symbol` -/

/-- The loop of `backend_split_symbol` over the table `tbl`, from the node at
position `pos` on.  `fresh` is the address `malloc` hands out.  `none` is the
`strdup` of a `NULL` source name. -/
def split_symbol_loop (tbl : List backend_symbol) (sym : Nat) (name : String)
    (val : Nat) (type : backend_symbol_type) (flags : Nat) (fresh : Nat) :
    List backend_symbol → Nat → Option (Option Nat × List backend_symbol)
  | [], _ => some (none, tbl)
  | e :: rest, pos =>
    if e.ptr = sym then
      let newsize := to_uint (usub val e.val)
      match e.src with
      | none => none
      | some src =>
        let s : backend_symbol :=
          { ptr := fresh, name := name, val := val, type := type,
            size := usub e.size newsize, flags := flags, sec := e.sec,
            src := some src }
        some (some fresh, store_size (ll_insert tbl pos s) sym newsize)
    else split_symbol_loop tbl sym name val type flags fresh rest (pos + 1)

/-- The function `backend_split_symbol`.  The result is the returned pointer
and the object after the call; `none` is undefined behaviour. -/
def backend_split_symbol (obj : Option backend_object) (sym : Nat) (name : String)
    (val : Nat) (type : backend_symbol_type) (flags : Nat) (fresh : Nat) :
    Option (Option Nat × Option backend_object) :=
  match obj with
  | none => some (none, none)
  | some o =>
    match o.symbol_table with
    | none => some (none, some o)
    | some tbl =>
      match split_symbol_loop tbl sym name val type flags fresh
          (ll_iter_start (some tbl)) 0 with
      | none => none
      | some (r, tbl1) => some (r, some { o with symbol_table := some tbl1 })

/-! ## `backend_sort_symbols` -/

/-- The inner loop of `backend_sort_symbols`: `ii` runs over the nodes of
`new_table`, `i` is the node before it (by position, `none` for `NULL`), `pos`
the position of `ii`.  The result is `new_table` with `bs` placed. -/
def sort_symbols_place (cmp : backend_symbol → backend_symbol → Int)
    (bs : backend_symbol) (new_table : List backend_symbol) :
    List backend_symbol → Option Nat → Nat → List backend_symbol
  | [], _, _ => ll_add new_table bs
  | ss :: rest, i, pos =>
    if cmp bs ss < 0 then
      match i with
      | none => ll_push new_table bs
      | some n => ll_insert new_table n bs
    else sort_symbols_place cmp bs new_table rest (some pos) (pos + 1)

/-- The outer loop of `backend_sort_symbols`: `iter` runs over the old table,
`new_table` is the table built so far. -/
def sort_symbols_loop (cmp : backend_symbol → backend_symbol → Int) :
    List backend_symbol → List backend_symbol → List backend_symbol
  | [], new_table => new_table
  | bs :: rest, new_table =>
    sort_symbols_loop cmp rest (sort_symbols_place cmp bs new_table new_table none 0)

/-- The function `backend_sort_symbols`: the return code and the object after
the call.  `ll_destroy` releases the nodes of the old table and leaves the
entries alone. -/
def backend_sort_symbols (obj : Option backend_object)
    (cmp : backend_symbol → backend_symbol → Int) : Int × Option backend_object :=
  match obj with
  | none => (-1, none)
  | some o =>
    match o.symbol_table with
    | none => (-1, some o)
    | some tbl =>
      let new_table := sort_symbols_loop cmp (ll_iter_start (some tbl)) []
      (0, some { o with symbol_table := some new_table })

/-! ## `backend_add_symbol`, `backend_get_symbol_index`, `backend_find_symbol_by_index` -/

/-- Modelled from the spec: `ll_init` of `ll.h`, the empty sequence. -/
def ll_init {α : Type} : List α := []

/-- The function `backend_add_symbol`.  `name` is `none` for a `NULL` name,
`fresh` is the address `malloc` hands out.  The result is the returned pointer
and the object after the call. -/
def backend_add_symbol (obj : Option backend_object) (name : Option String) (val : Nat)
    (type : backend_symbol_type) (size flags : Nat) (sec : Option Nat) (fresh : Nat) :
    Option Nat × Option backend_object :=
  match obj with
  | none => (none, none)
  | some o =>
    let tbl : List backend_symbol :=
      match o.symbol_table with
      | none => ll_init
      | some t => t
    let name1 : String := name.getD "!"
    let s : backend_symbol :=
      { ptr := fresh, name := name1, val := val, type := type, size := size,
        flags := flags, sec := sec, src := none }
    (some fresh, some { o with symbol_table := some (ll_add tbl s) })

/-- The loop of `backend_get_symbol_index`, from the node `iter` on, with the
current `unsigned int count`; `(unsigned int)-1` at the end of the table. -/
def get_symbol_index_loop (s : Nat) : List backend_symbol → Nat → Nat
  | [], _ => UINT - 1
  | e :: rest, count =>
    if e.ptr = s then count else get_symbol_index_loop s rest (to_uint (count + 1))

/-- The function `backend_get_symbol_index`; `s` is `none` for a `NULL`
pointer. -/
def backend_get_symbol_index (obj : Option backend_object) (s : Option Nat) : Nat :=
  match obj with
  | none => UINT - 1
  | some o =>
    match o.symbol_table with
    | none => UINT - 1
    | some tbl =>
      match s with
      | none => UINT - 1
      | some p => get_symbol_index_loop p (ll_iter_start (some tbl)) 0

/-- The `for` loop of `backend_find_symbol_by_index` with `n` rounds left, at
the node `iter`: the node reached, or `none` when the loop returns `NULL` on
running off the table. -/
def find_symbol_by_index_walk : Nat → List backend_symbol → Option (List backend_symbol)
  | 0, iter => some iter
  | _ + 1, [] => none
  | n + 1, _ :: next => find_symbol_by_index_walk n next

/-- The function `backend_find_symbol_by_index`. -/
def backend_find_symbol_by_index (obj : Option backend_object) (index : Nat) :
    Option backend_symbol :=
  match obj with
  | none => none
  | some o =>
    match o.symbol_table with
    | none => none
    | some tbl =>
      match find_symbol_by_index_walk index (ll_iter_start (some tbl)) with
      | none => none
      | some [] => none
      | some (bs :: _) => some bs

/-! ## The backend registry -/

/-- The macro `BACKEND_COUNT`: the number of entries of `backend_table`. -/
def BACKEND_COUNT : Nat := 4

/-- The function `backend_register` on the registry `backend[0 .. num_backends)`,
given as the list of its descriptors.  `none` is the call `be->name()` through a
null pointer. -/
def backend_register (backend : List backend_ops) (be : backend_ops) :
    Option (List backend_ops) :=
  if backend.length ≥ BACKEND_COUNT then some backend
  else
    match be.format with
    | none => some backend
    | some _ =>
      match be.name with
      | none => none
      | some _ => some (backend ++ [be])

/-- A sequence of `backend_register` calls, one for each descriptor of `bes`
in turn. -/
def register_all : List backend_ops → List backend_ops → Option (List backend_ops)
  | backend, [] => some backend
  | backend, be :: rest =>
    match backend_register backend be with
    | none => none
    | some backend1 => register_all backend1 rest

/-- The loop of `backend_lookup_target`.  `none` is the call `format()` through
a null pointer. -/
def lookup_target_loop (name : String) : List backend_ops → Option backend_type
  | [] => some backend_type.OBJECT_TYPE_NONE
  | be :: rest =>
    match be.name with
    | none => lookup_target_loop name rest
    | some n => if strcmp n name = 0 then be.format else lookup_target_loop name rest

/-- The function `backend_lookup_target`; `name` is `none` for `NULL`. -/
def backend_lookup_target (backend : List backend_ops) (name : Option String) :
    Option backend_type :=
  match name with
  | none => some backend_type.OBJECT_TYPE_NONE
  | some n => lookup_target_loop n backend

/-- The function `backend_read`.  The outer `none` is the call `read(filename)`
through a null pointer, `some none` the return of `NULL`. -/
def backend_read (filename : String) : List backend_ops → Option (Option backend_object)
  | [] => some none
  | be :: rest =>
    match be.read with
    | none => none
    | some rd =>
      match rd filename with
      | some obj => some (some obj)
      | none => backend_read filename rest

/-- The function `backend_write`.  `none` is the call `format()` through a null
pointer. -/
def backend_write (obj : backend_object) : List backend_ops → Option Int
  | [] => some (-1)
  | be :: rest =>
    match be.format with
    | none => none
    | some t =>
      if t = obj.type then
        match be.write with
        | none => some (-2)
        | some wr => some (wr obj obj.name)
      else backend_write obj rest

/-! ## Typed iteration over symbols and over sections -/

/-- The `for` loop of the typed symbol iteration from the node `iter` on: the
first node whose symbol has the type, `NULL` when there is none. -/
def symbol_type_scan (type : backend_symbol_type) :
    List backend_symbol → List backend_symbol
  | [] => []
  | bs :: rest => if bs.type = type then bs :: rest else symbol_type_scan type rest

/-- The function `backend_get_symbol_by_type_first`, for a non-null object. -/
def backend_get_symbol_by_type_first (obj : backend_object) (type : backend_symbol_type) :
    Option backend_symbol × backend_object :=
  match obj.symbol_table with
  | none => (none, obj)
  | some tbl =>
    let obj1 := { obj with iter_symbol_t := symbol_type_scan type (ll_iter_start (some tbl)) }
    (obj1.iter_symbol_t.head?, obj1)

/-- The function `backend_get_symbol_by_type_next`, for a non-null object.
`none` is the step `iter_symbol_t->next` from a `NULL` cursor. -/
def backend_get_symbol_by_type_next (obj : backend_object) (type : backend_symbol_type) :
    Option (Option backend_symbol × backend_object) :=
  match obj.symbol_table with
  | none => some (none, obj)
  | some _ =>
    match obj.iter_symbol_t with
    | [] => none
    | _ :: next =>
      let obj1 := { obj with iter_symbol_t := symbol_type_scan type next }
      some (obj1.iter_symbol_t.head?, obj1)

/-- The `while` loop of the typed section iteration from the node `iter` on:
it steps over the nodes whose section has another type. -/
def section_type_scan (t : Nat) : List backend_section → List backend_section
  | [] => []
  | sec :: rest => if sec.type ≠ t then section_type_scan t rest else sec :: rest

/-- The function `backend_get_first_section_by_type`. -/
def backend_get_first_section_by_type (obj : backend_object) (t : Nat) :
    Option backend_section × backend_object :=
  match obj.section_table with
  | none => (none, obj)
  | some tbl =>
    let obj1 := { obj with iter_section := section_type_scan t (ll_iter_start (some tbl)) }
    (obj1.iter_section.head?, obj1)

/-- The function `backend_get_next_section_by_type`: the `while` loop starts at
the cursor as it stands. -/
def backend_get_next_section_by_type (obj : backend_object) (t : Nat) :
    Option backend_section × backend_object :=
  let obj1 := { obj with iter_section := section_type_scan t obj.iter_section }
  (obj1.iter_section.head?, obj1)

/-! ## Section lookups -/

/-- The test of `backend_find_section_by_val` on one section:
`sec->address <= val && sec->address + sec->size > val`. -/
def section_holds_val (sec : backend_section) (val : Nat) : Bool :=
  decide (sec.address ≤ val) && decide (uadd sec.address sec.size > val)

/-- The loop of `backend_find_section_by_val`. -/
def find_section_by_val_loop (val : Nat) : List backend_section → Option backend_section
  | [] => none
  | sec :: rest =>
    if section_holds_val sec val then some sec else find_section_by_val_loop val rest

/-- The function `backend_find_section_by_val`, for a non-null object. -/
def backend_find_section_by_val (obj : backend_object) (val : Nat) :
    Option backend_section :=
  find_section_by_val_loop val (ll_iter_start obj.section_table)

/-- Largest value of an `int`. -/
def INT_MAX : Nat := 2 ^ 31 - 1

/-- The loop of `backend_get_section_by_index` with the current `int i`.  Every
round evaluates `i++ == index`: the old `i` is converted to `unsigned int` for
the comparison and `i` is incremented, which overflows when `i` is `INT_MAX`.
The outer `none` is that overflow, `some none` the return of `NULL`. -/
def get_section_by_index_loop (index : Nat) :
    List backend_section → Nat → Option (Option backend_section)
  | [], _ => some none
  | sec :: rest, i =>
    if i ≥ INT_MAX then none
    else if to_uint i = index then some (some sec)
    else get_section_by_index_loop index rest (i + 1)

/-- The function `backend_get_section_by_index`, for a non-null object.  The
table is not tested before `ll_iter_start`. -/
def backend_get_section_by_index (obj : backend_object) (index : Nat) :
    Option (Option backend_section) :=
  get_section_by_index_loop index (ll_iter_start obj.section_table) 1

/-- The loop of `backend_get_section_index_by_name` with the current
`int index`.  Every round computes `index + 1`, for the return or for the next
round, which overflows when `index` is `INT_MAX`: that is the result `none`. -/
def get_section_index_by_name_loop (name : String) :
    List backend_section → Int → Option Int
  | [], _ => some (-1)
  | sec :: rest, index =>
    if index ≥ (INT_MAX : Int) then none
    else if strcmp name sec.name = 0 then some (index + 1)
    else get_section_index_by_name_loop name rest (index + 1)

/-- The function `backend_get_section_index_by_name`; `name` is `none` for
`NULL`.  The result `none` is the overflow of the counter. -/
def backend_get_section_index_by_name (obj : Option backend_object) (name : Option String) :
    Option Int :=
  match obj with
  | none => some (-1)
  | some o =>
    match name with
    | none => some (-1)
    | some n =>
      match o.section_table with
      | none => some (-1)
      | some tbl => get_section_index_by_name_loop n (ll_iter_start (some tbl)) 0

/-- Conversion of an `int` to `unsigned int`. -/
def int_to_uint (r : Int) : Nat := (r % (UINT : Int)).toNat

/-! ## `backend_get_first_symbol`, `backend_get_next_symbol`, `backend_remove_symbol_by_name` -/

/-- The function `backend_get_first_symbol`, for a non-null object.  `none` is
the read of `iter_symbol->val` through a `NULL` cursor. -/
def backend_get_first_symbol (obj : backend_object) :
    Option (Option backend_symbol × backend_object) :=
  match obj.symbol_table with
  | none => some (none, obj)
  | some tbl =>
    let obj1 := { obj with iter_symbol := ll_iter_start (some tbl) }
    match obj1.iter_symbol with
    | [] => none
    | bs :: _ => some (some bs, obj1)

/-- The function `backend_get_next_symbol`, for a non-null object.  `none` is
the step `iter_symbol->next` from a `NULL` cursor. -/
def backend_get_next_symbol (obj : backend_object) :
    Option (Option backend_symbol × backend_object) :=
  match obj.iter_symbol with
  | [] => none
  | _ :: next =>
    let obj1 := { obj with iter_symbol := next }
    match obj1.iter_symbol with
    | bs :: _ => some (some bs, obj1)
    | [] => some (none, obj1)

/-- The function `backend_remove_symbol_by_name`: the return code and the object
after the call.  The entry unlinked by `ll_remove` is freed. -/
def backend_remove_symbol_by_name (obj : Option backend_object) (name : String) :
    Int × Option backend_object :=
  match obj with
  | none => (-1, none)
  | some o =>
    match o.symbol_table with
    | none => (-1, some o)
    | some tbl =>
      match (ll_remove cmp_by_name name tbl).1 with
      | some _ => (0, some { o with symbol_table := some (ll_remove cmp_by_name name tbl).2 })
      | none => (-2, some { o with symbol_table := some (ll_remove cmp_by_name name tbl).2 })

/-! ## `backend_import_symbol_count` -/

/-- The `while (s)` loop of `backend_import_symbol_count` with the current `s`
and the current `unsigned int count`, for at most `fuel` rounds.  `none` is the
undefined behaviour of `backend_get_next_import`, or the end of the fuel. -/
def import_symbol_count_loop :
    Nat → Option backend_symbol → backend_object → Nat → Option Nat
  | _, none, _, count => some count
  | 0, some _, _, _ => none
  | fuel + 1, some _, obj, count =>
    match backend_get_next_import obj with
    | none => none
    | some (s, obj1) => import_symbol_count_loop fuel s obj1 (to_uint (count + 1))

/-- The number of imported symbols held by all modules of an import table. -/
def import_table_total : List backend_import → Nat
  | [] => 0
  | i :: rest => (ll_iter_start i.symbols).length + import_table_total rest

/-- The function `backend_import_symbol_count`.  The loop gets one round for
every imported symbol of the table, which is as many as it can take (proved
below), so `none` is undefined behaviour only. -/
def backend_import_symbol_count (obj : Option backend_object) : Option Nat :=
  match obj with
  | none => some 0
  | some o =>
    import_symbol_count_loop (import_table_total (ll_iter_start o.import_table))
      (backend_get_first_import o).1 (backend_get_first_import o).2 0

/-! ## Concrete inputs used below -/

/-- A symbol record with the given address, name, value, size and source file;
type FUNCTION, no flags, no section. -/
def mk_symbol (ptr : Nat) (name : String) (val size : Nat) (src : Option String) :
    backend_symbol :=
  { ptr := ptr, name := name, val := val,
    type := backend_symbol_type.SYMBOL_TYPE_FUNCTION, size := size, flags := 0,
    sec := none, src := src }

/-- An object that holds the given symbol table and nothing else. -/
def object_of_symbols (tbl : List backend_symbol) : Option backend_object :=
  some { symbol_table := some tbl }

/-- The value-ascending table with values 10, 20, 30. -/
def nearest_table : List backend_symbol :=
  [mk_symbol 1 "s10" 10 0 none, mk_symbol 2 "s20" 20 0 none, mk_symbol 3 "s30" 30 0 none]

/-- The imported symbols a, b, c. -/
def import_a : backend_symbol := mk_symbol 1 "a" 0 0 none

/-- The imported symbol b. -/
def import_b : backend_symbol := mk_symbol 2 "b" 0 0 none

/-- The imported symbol c. -/
def import_c : backend_symbol := mk_symbol 3 "c" 0 0 none

/-- An object with the import modules M1 = [a, b], M2 = [] (no function was
ever added, so its sequence is absent), M3 = [c]. -/
def import_object : backend_object :=
  { import_table := some
      [{ name := "M1", symbols := some [import_a, import_b] },
       { name := "M2", symbols := none },
       { name := "M3", symbols := some [import_c] }] }

/-- Two neighbours that carry the same name: both were added without a name,
so both are called "!". -/
def merge_same_name_table : List backend_symbol :=
  [mk_symbol 1 "!" 0x100 0x10 none, mk_symbol 2 "!" 0x120 0x10 none]

/-- A table in which the first and the third entry are both called "x". -/
def merge_dup_table : List backend_symbol :=
  [mk_symbol 1 "x" 0x100 0x10 none, mk_symbol 2 "y" 0x120 0x10 none,
   mk_symbol 3 "x" 0x140 0x10 none]

/-- The symbol F(val=0x200, size=0x40) of the split scenario, without a source
file (as `backend_add_symbol` leaves it) when `src` is `none`. -/
def split_F (src : Option String) : backend_symbol := mk_symbol 1 "F" 0x200 0x40 src

/-- A symbol of 8 GiB at address 0 with a source file. -/
def split_big : backend_symbol := mk_symbol 1 "F" 0 0x200000000 (some "f.c")

/-- A backend "mz" for the format MZ whose reader recognizes no file and which
has no writer. -/
def mz_backend : backend_ops :=
  { name := some "mz", format := some backend_type.OBJECT_TYPE_MZ,
    read := some (fun _ => none), write := none }

/-- A backend "elf64" for the format ELF64 whose reader builds a blank ELF64
object for every file and whose writer returns 0. -/
def elf64_backend : backend_ops :=
  { name := some "elf64", format := some backend_type.OBJECT_TYPE_ELF64,
    read := some (fun filename =>
      some { name := some filename, type := backend_type.OBJECT_TYPE_ELF64 }),
    write := some (fun _ _ => 0) }

/-- A write-only backend "pe" for the format PE: it has no `read` callback. -/
def pe_backend : backend_ops :=
  { name := some "pe", format := some backend_type.OBJECT_TYPE_PE,
    read := none, write := some (fun _ _ => 0) }

/-- A descriptor with a `format` callback and without a `name` callback. -/
def nameless_backend : backend_ops :=
  { name := none, format := some backend_type.OBJECT_TYPE_ELF32,
    read := none, write := none }

/-- A descriptor without a `format` callback. -/
def formatless_backend : backend_ops :=
  { name := some "raw", format := none, read := none, write := none }

/-- A section record with the given address of the record, name, type, size and
virtual address; every other field zero or absent. -/
def mk_section (ptr : Nat) (name : String) (type size address : Nat) : backend_section :=
  { ptr := ptr, name := name, type := type, index := 0, size := size, address := address,
    flags := 0, entry_size := 0, alignment := 0, data := none, strtab := none }

/-- Three sections: two of type 1 around one of type 2. -/
def typed_sections : List backend_section :=
  [mk_section 1 ".text" 1 0x100 0x1000, mk_section 2 ".data" 2 0x80 0x2000,
   mk_section 3 ".init" 1 0x20 0x3000]

/-- Three symbols: two functions around one of type OBJECT. -/
def typed_symbols : List backend_symbol :=
  [mk_symbol 1 "f" 0x1000 0x10 none,
   { mk_symbol 2 "v" 0x2000 8 none with type := backend_symbol_type.SYMBOL_TYPE_OBJECT },
   mk_symbol 3 "g" 0x1010 0x10 none]

/-- A two-byte section at the last address of the 64-bit space. -/
def top_section : backend_section := mk_section 1 ".top" 1 2 0xFFFFFFFFFFFFFFFF

/-- The number of imported symbols in the modules in front of the first module
without symbols: what the flat iteration reaches. -/
def import_table_leading : List backend_import → Nat
  | [] => 0
  | i :: rest =>
    match ll_iter_start i.symbols with
    | [] => 0
    | s :: ss => (s :: ss).length + import_table_leading rest

/-- An object with the import modules M0 = [] and M1 = [a, b]. -/
def import_object_empty_first : backend_object :=
  { import_table := some
      [{ name := "M0", symbols := none },
       { name := "M1", symbols := some [import_a, import_b] }] }

/-- A table of three symbols; the middle one, F(val=0x200, size=0x40), refers to
the section at address 7 and has the given source file. -/
def frame_table (src : Option String) : List backend_symbol :=
  [mk_symbol 1 "A" 0x100 0x10 (some "a.c"),
   { mk_symbol 2 "F" 0x200 0x40 src with sec := some 7 },
   mk_symbol 3 "B" 0x300 0x10 (some "b.c")]

/-! ## Notions used to state the sorting theorems -/

/-- A comparator in the style of `backend_cmpfunc` that is a consistent total
preorder: the signs of `cmp a b` and `cmp b a` are opposite, and "not after"
is transitive. -/
structure ConsistentPreorder (cmp : backend_symbol → backend_symbol → Int) : Prop where
  antisymm : ∀ a b, cmp a b < 0 ↔ 0 < cmp b a
  trans : ∀ a b c, cmp a b ≤ 0 → cmp b c ≤ 0 → cmp a c ≤ 0

/-- Placement of `bs` in front of the first entry it is strictly below, at the
end when there is none.  A functional description of one round of the inner
loop of `backend_sort_symbols`, proved equal to it below. -/
def sort_insert (cmp : backend_symbol → backend_symbol → Int) (bs : backend_symbol) :
    List backend_symbol → List backend_symbol
  | [] => [bs]
  | ss :: rest =>
    if cmp bs ss < 0 then bs :: ss :: rest else ss :: sort_insert cmp bs rest

/-- A comparator by ascending value. -/
def cmp_by_val (a b : backend_symbol) : Int := (a.val : Int) - (b.val : Int)

/-- A table with repeated values, out of order. -/
def unsorted_table : List backend_symbol :=
  [mk_symbol 1 "a" 30 0 none, mk_symbol 2 "b" 10 0 none, mk_symbol 3 "c" 20 0 none,
   mk_symbol 4 "d" 10 0 none]

/-- A two-byte symbol at the last address of the 64-bit space: its extent runs
past `2 ^ 64`. -/
def top_symbol : backend_symbol := mk_symbol 1 "top" 0xFFFFFFFFFFFFFFFF 2 none

/-! # Theorems -/

/-! ## `backend_find_nearest_symbol` -/

/-- Once the loop has run off the end of the table the result is `NULL`,
whatever `prevbs` holds: the loop returns `prevbs` only from inside, at an entry
above the target. -/
theorem find_nearest_loop_none_of_all_le (val : Nat) (tbl : List backend_symbol)
    (prevbs : Option backend_symbol) (h : ∀ s ∈ tbl, s.val ≤ val) :
    find_nearest_loop val tbl prevbs = none := by
  induction tbl generalizing prevbs with
  | nil => rfl
  | cons bs rest ih =>
    have hbs : ¬ bs.val > val := Nat.not_lt.mpr (h bs (List.mem_cons_self _ _))
    simp only [find_nearest_loop, if_neg hbs]
    exact ih _ (fun s hs => h s (List.mem_cons_of_mem _ hs))

/-- C1, evaluated on the code: on the value-ascending table 10, 20, 30 the
lookup returns the symbol at 20 for target 25 and `NULL` for target 5, but for
target 100, above every entry, it returns `NULL` and not the symbol at 30; the
same happens for target 30, the value of the last entry. -/
theorem find_nearest_symbol_above_last_is_null :
    (backend_find_nearest_symbol (object_of_symbols nearest_table) 25).map (fun s => s.val)
        = some 20 ∧
      backend_find_nearest_symbol (object_of_symbols nearest_table) 5 = none ∧
      backend_find_nearest_symbol (object_of_symbols nearest_table) 100 = none ∧
      backend_find_nearest_symbol (object_of_symbols nearest_table) 30 = none := by
  decide

/-! ## `backend_get_first_import`, `backend_get_next_import` -/

/-- C2, evaluated on the code: with the modules M1 = [a, b], M2 = [], M3 = [c]
the iteration yields a, then b, then `NULL` on reaching the empty module M2; c
is never yielded, and one more call dereferences the `NULL` symbol cursor. -/
theorem import_iteration_ends_at_empty_module :
    (backend_get_first_import import_object).1 = some import_a ∧
      ∃ o1 o2 : backend_object,
        backend_get_next_import (backend_get_first_import import_object).2
            = some (some import_b, o1) ∧
          backend_get_next_import o1 = some (none, o2) ∧
          backend_get_next_import o2 = none :=
  ⟨rfl, _, _, rfl, rfl, rfl⟩

/-! ## `backend_merge_symbol` and `backend_split_symbol` where names and sizes do not interfere -/

/-- The comparison of character sequences is zero exactly on equal ones. -/
theorem strcmp_chars_eq_zero_iff : ∀ a b : List Char, strcmp_chars a b = 0 ↔ a = b := by
  intro a
  induction a with
  | nil => intro b; cases b <;> simp [strcmp_chars]
  | cons x xs ih =>
    intro b
    cases b with
    | nil => simp [strcmp_chars]
    | cons y ys =>
      simp only [strcmp_chars, List.cons.injEq]
      split_ifs with h1 h2
      · constructor
        · intro h; exact absurd h (by decide)
        · rintro ⟨rfl, _⟩; exact absurd h1 (lt_irrefl _)
      · constructor
        · intro h; exact absurd h (by decide)
        · rintro ⟨rfl, _⟩; exact absurd h2 (lt_irrefl _)
      · have hxy : x = y := Char.ext (UInt32.ext (by unfold Char.toNat at h1 h2; omega))
        rw [ih ys]
        constructor
        · intro h; exact ⟨hxy, h⟩
        · rintro ⟨_, h⟩; exact h

/-- The model of `strcmp` returns zero exactly on equal strings. -/
theorem strcmp_eq_zero_iff (a b : String) : strcmp a b = 0 ↔ a = b := by
  unfold strcmp
  rw [strcmp_chars_eq_zero_iff, String.ext_iff]

/-- The by-name removal unlinks the first entry that carries the name. -/
theorem ll_remove_by_name_first (name : String) (s : backend_symbol)
    (post : List backend_symbol) (hs : s.name = name) :
    ∀ pre : List backend_symbol, (∀ x ∈ pre, x.name ≠ name) →
      ll_remove cmp_by_name name (pre ++ s :: post) = (some s, pre ++ post) := by
  intro pre
  induction pre with
  | nil =>
    intro _
    have h0 : cmp_by_name s name = 0 := (strcmp_eq_zero_iff _ _).mpr hs
    simp only [List.nil_append, ll_remove, if_pos h0]
  | cons x r ih =>
    intro hpre
    have hx : ¬ cmp_by_name x name = 0 := fun h =>
      hpre x (List.mem_cons_self _ _) ((strcmp_eq_zero_iff _ _).mp h)
    have hr := ih (fun y hy => hpre y (List.mem_cons_of_mem _ hy))
    show ll_remove cmp_by_name name (x :: (r ++ s :: post)) = _
    rw [ll_remove, if_neg hx, hr]
    rfl

/-- A store through a pointer leaves every record at another address alone. -/
theorem store_size_of_ne (p v : Nat) :
    ∀ l : List backend_symbol, (∀ x ∈ l, x.ptr ≠ p) → store_size l p v = l := by
  intro l
  induction l with
  | nil => intro _; rfl
  | cons x r ih =>
    intro h
    have hx : ¬ x.ptr = p := h x (List.mem_cons_self _ _)
    have hr := ih (fun y hy => h y (List.mem_cons_of_mem _ hy))
    unfold store_size at hr ⊢
    simp only [List.map_cons, if_neg hx, hr]

/-- A store through the pointer of the entry `s` changes that entry only, when
no other entry lives at the same address. -/
theorem store_size_at (s : backend_symbol) (v : Nat) (pre post : List backend_symbol)
    (hpre : ∀ x ∈ pre, x.ptr ≠ s.ptr) (hpost : ∀ x ∈ post, x.ptr ≠ s.ptr) :
    store_size (pre ++ s :: post) s.ptr v = pre ++ { s with size := v } :: post := by
  have h1 := store_size_of_ne s.ptr v pre hpre
  have h2 := store_size_of_ne s.ptr v post hpost
  unfold store_size at h1 h2 ⊢
  simp only [List.map_append, List.map_cons, h1, h2, if_true]

/-- The walk of `backend_merge_symbol` ends with `NULL` when no entry is at the
address `sym`. -/
theorem merge_symbol_loop_absent (tbl : List backend_symbol) (sym : Nat) :
    ∀ (l : List backend_symbol) (prev : Option backend_symbol),
      (∀ x ∈ l, x.ptr ≠ sym) → merge_symbol_loop tbl sym l prev = (none, tbl) := by
  intro l
  induction l with
  | nil => intro _ _; rfl
  | cons x r ih =>
    intro prev h
    have hx : ¬ x.ptr = sym := h x (List.mem_cons_self _ _)
    simp only [merge_symbol_loop, if_neg hx]
    exact ih _ (fun y hy => h y (List.mem_cons_of_mem _ hy))

/-- The walk of `backend_merge_symbol` up to the entry `s` at the address `sym`
whose predecessor is `p`. -/
theorem merge_symbol_loop_at (tbl : List backend_symbol) (p s : backend_symbol)
    (post : List backend_symbol) (hp : p.ptr ≠ s.ptr) :
    ∀ (pre : List backend_symbol) (prev : Option backend_symbol),
      (∀ x ∈ pre, x.ptr ≠ s.ptr) →
      merge_symbol_loop tbl s.ptr (pre ++ p :: s :: post) prev
        = (some p.ptr, (ll_remove cmp_by_name s.name
            (store_size tbl p.ptr (usub (uadd s.val s.size) p.val))).2) := by
  intro pre
  induction pre with
  | nil =>
    intro prev _
    simp only [List.nil_append, merge_symbol_loop, if_neg hp, if_true]
  | cons x r ih =>
    intro prev h
    have hx : ¬ x.ptr = s.ptr := h x (List.mem_cons_self _ _)
    simp only [List.cons_append, merge_symbol_loop, if_neg hx]
    exact ih _ (fun y hy => h y (List.mem_cons_of_mem _ hy))

/-- What `backend_merge_symbol` does when names do not clash: for a table
`pre ++ p :: s :: post` with pairwise distinct addresses in which no entry up to
and including the predecessor `p` carries the name of `s`, merging `s` returns
`p`, sets the size of `p` to `(s.val + s.size) - p.val` in 64-bit arithmetic,
and removes exactly `s`. -/
theorem merge_symbol_of_distinct_names (o : backend_object) (p s : backend_symbol)
    (pre post : List backend_symbol)
    (hptr : ((pre ++ p :: s :: post).map (fun x => x.ptr)).Nodup)
    (hname : ∀ x ∈ pre ++ [p], x.name ≠ s.name) :
    backend_merge_symbol (some { o with symbol_table := some (pre ++ p :: s :: post) }) s.ptr
      = (some p.ptr, some { o with
          symbol_table := some (pre ++ { p with size := usub (uadd s.val s.size) p.val } :: post) }) := by
  rw [List.map_append, List.map_cons, List.map_cons, List.nodup_append] at hptr
  obtain ⟨_, hps, hdisj⟩ := hptr
  rw [List.nodup_cons, List.nodup_cons] at hps
  obtain ⟨hp1, hs1, _⟩ := hps
  have hp_ne : p.ptr ≠ s.ptr := fun h => hp1 (by simp [h])
  have hpre_s : ∀ x ∈ pre, x.ptr ≠ s.ptr := fun x hx h =>
    hdisj (List.mem_map_of_mem _ hx) (by simp [h])
  have hpre_p : ∀ x ∈ pre, x.ptr ≠ p.ptr := fun x hx h =>
    hdisj (List.mem_map_of_mem _ hx) (by simp [h])
  have hpost_p : ∀ x ∈ s :: post, x.ptr ≠ p.ptr := by
    intro x hx h
    apply hp1
    rw [← h]
    exact List.mem_map_of_mem (fun x => x.ptr) hx
  have hloop := merge_symbol_loop_at (pre ++ p :: s :: post) p s post hp_ne pre none hpre_s
  have hstore := store_size_at p (usub (uadd s.val s.size) p.val) pre (s :: post) hpre_p hpost_p
  have hrem := ll_remove_by_name_first s.name s post rfl
    (pre ++ [{ p with size := usub (uadd s.val s.size) p.val }])
    (by
      intro x hx
      rcases List.mem_append.mp hx with hx | hx
      · exact hname x (List.mem_append_left _ hx)
      · rw [List.mem_singleton] at hx
        rw [hx]
        exact hname p (List.mem_append_right _ (List.mem_singleton_self _)))
  simp only [List.append_assoc, List.singleton_append] at hrem
  simp only [backend_merge_symbol, ll_iter_start, hloop, hstore, hrem]

/-- Merging the first entry returns it and changes nothing. -/
theorem merge_symbol_of_first (o : backend_object) (s : backend_symbol)
    (post : List backend_symbol) :
    backend_merge_symbol (some { o with symbol_table := some (s :: post) }) s.ptr
      = (some s.ptr, some { o with symbol_table := some (s :: post) }) := by
  simp only [backend_merge_symbol, ll_iter_start, merge_symbol_loop, if_true]

/-- Merging a pointer that is no entry of the table returns `NULL` and changes
nothing; so does a call without an object or without a table. -/
theorem merge_symbol_of_absent (o : backend_object) (tbl : List backend_symbol) (sym : Nat)
    (h : ∀ x ∈ tbl, x.ptr ≠ sym) :
    backend_merge_symbol (some { o with symbol_table := some tbl }) sym
        = (none, some { o with symbol_table := some tbl }) ∧
      backend_merge_symbol (some { o with symbol_table := none }) sym
        = (none, some { o with symbol_table := none }) ∧
      backend_merge_symbol none sym = (none, none) := by
  refine ⟨?_, rfl, rfl⟩
  simp only [backend_merge_symbol, ll_iter_start, merge_symbol_loop_absent tbl sym tbl none h]

/-- The walk of `backend_split_symbol` up to the entry `s` at the address
`sym`, which has a source file. -/
theorem split_symbol_loop_at (tbl : List backend_symbol) (name : String) (val : Nat)
    (type : backend_symbol_type) (flags fresh : Nat) (s : backend_symbol)
    (post : List backend_symbol) (src : String) (hsrc : s.src = some src) :
    ∀ (pre : List backend_symbol) (pos : Nat), (∀ x ∈ pre, x.ptr ≠ s.ptr) →
      split_symbol_loop tbl s.ptr name val type flags fresh (pre ++ s :: post) pos
        = some (some fresh,
            store_size
              (ll_insert tbl (pos + pre.length)
                { ptr := fresh, name := name, val := val, type := type,
                  size := usub s.size (to_uint (usub val s.val)), flags := flags,
                  sec := s.sec, src := some src })
              s.ptr (to_uint (usub val s.val))) := by
  intro pre
  induction pre with
  | nil =>
    intro pos _
    simp only [List.nil_append, split_symbol_loop, if_true, hsrc, List.length_nil,
      Nat.add_zero]
  | cons x r ih =>
    intro pos h
    have hx : ¬ x.ptr = s.ptr := h x (List.mem_cons_self _ _)
    have hr := ih (pos + 1) (fun y hy => h y (List.mem_cons_of_mem _ hy))
    show split_symbol_loop tbl s.ptr name val type flags fresh (x :: (r ++ s :: post)) pos = _
    rw [split_symbol_loop, if_neg hx, hr, List.length_cons, Nat.add_assoc,
      Nat.add_comm 1 r.length]

/-- What `backend_split_symbol` does on an entry `s` with a source file, in a
table `pre ++ s :: post` with pairwise distinct addresses and a fresh address
for the new record: the new symbol stands right behind `s`, it has the size
`s.size - newsize` and `s` the size `newsize`, where `newsize` is `val - s.val`
cut to 32 bits. -/
theorem split_symbol_at (o : backend_object) (s : backend_symbol)
    (pre post : List backend_symbol) (src name : String) (val : Nat)
    (type : backend_symbol_type) (flags fresh : Nat)
    (hptr : ((pre ++ s :: post).map (fun x => x.ptr)).Nodup)
    (hfresh : fresh ≠ s.ptr) (hsrc : s.src = some src) :
    backend_split_symbol (some { o with symbol_table := some (pre ++ s :: post) })
        s.ptr name val type flags fresh
      = some (some fresh, some { o with
          symbol_table := some (pre ++ { s with size := to_uint (usub val s.val) } ::
            { ptr := fresh, name := name, val := val, type := type,
              size := usub s.size (to_uint (usub val s.val)), flags := flags,
              sec := s.sec, src := some src } :: post) }) := by
  rw [List.map_append, List.map_cons, List.nodup_append] at hptr
  obtain ⟨_, hps, hdisj⟩ := hptr
  rw [List.nodup_cons] at hps
  have hpre_s : ∀ x ∈ pre, x.ptr ≠ s.ptr := fun x hx h =>
    hdisj (List.mem_map_of_mem _ hx) (by simp [h])
  have hpost_s : ∀ x ∈ post, x.ptr ≠ s.ptr := fun x hx h =>
    hps.1 (by rw [← h]; exact List.mem_map_of_mem (fun x => x.ptr) hx)
  have hloop := split_symbol_loop_at (pre ++ s :: post) name val type flags fresh s post src
    hsrc pre 0 hpre_s
  have hins : ∀ n : backend_symbol,
      ll_insert (pre ++ s :: post) (0 + pre.length) n = pre ++ s :: n :: post := by
    intro n
    have ht : List.take (pre.length + 1) (pre ++ s :: post) = pre ++ [s] := by
      rw [List.take_append_eq_append_take]
      simp
    have hd : List.drop (pre.length + 1) (pre ++ s :: post) = post := by
      rw [List.drop_append_eq_append_drop]
      simp
    rw [Nat.zero_add]
    unfold ll_insert
    rw [ht, hd]
    simp
  have hstore := fun n : backend_symbol => fun hn : n.ptr ≠ s.ptr =>
    store_size_at s (to_uint (usub val s.val)) pre (n :: post) hpre_s
      (fun x hx => by
        rcases List.mem_cons.mp hx with rfl | hx
        · exact hn
        · exact hpost_s x hx)
  simp only [backend_split_symbol, ll_iter_start, hloop, hins]
  rw [hstore _ hfresh]

/-- The size arithmetic of the split for an offset below `2 ^ 32` inside a
symbol that ends below `2 ^ 64`: nothing is cut off and nothing wraps. -/
theorem split_sizes_of_small_offset (sval ssize val : Nat) (h1 : sval < val)
    (h2 : val < sval + ssize) (h3 : sval + ssize < 2 ^ 64) (h4 : val - sval < 2 ^ 32) :
    to_uint (usub val sval) = val - sval ∧
      usub ssize (to_uint (usub val sval)) = ssize - (val - sval) ∧
      usub (uadd val (ssize - (val - sval))) sval = ssize := by
  have e1 : usub val sval = val - sval := by
    unfold usub ULONG
    rw [Nat.mod_eq_of_lt (by omega : sval < 2 ^ 64)]
    omega
  have e2 : to_uint (usub val sval) = val - sval := by
    rw [e1]; unfold to_uint UINT; exact Nat.mod_eq_of_lt h4
  refine ⟨e2, ?_, ?_⟩
  · rw [e2]; unfold usub ULONG
    rw [Nat.mod_eq_of_lt (by omega : val - sval < 2 ^ 64)]
    omega
  · unfold usub uadd ULONG
    rw [Nat.mod_eq_of_lt (by omega : sval < 2 ^ 64),
      Nat.mod_eq_of_lt (by omega : val + (ssize - (val - sval)) < 2 ^ 64)]
    omega

/-- The round trip of split and merge where nothing goes wrong: for an entry
`s` with a source file that ends below `2 ^ 64`, a split point inside it with an
offset below `2 ^ 32`, a new name carried by no entry up to `s`, pairwise
distinct addresses and a fresh address for the new record, splitting `s` and
merging the new symbol returns `s` and leaves the table as it was before. -/
theorem split_then_merge_of_small_offset (o : backend_object) (s : backend_symbol)
    (pre post : List backend_symbol) (src name : String) (val : Nat)
    (type : backend_symbol_type) (flags fresh : Nat)
    (hptr : ((pre ++ s :: post).map (fun x => x.ptr)).Nodup)
    (hfresh : ∀ x ∈ pre ++ s :: post, x.ptr ≠ fresh) (hsrc : s.src = some src)
    (hname : ∀ x ∈ pre ++ [s], x.name ≠ name)
    (h1 : s.val < val) (h2 : val < s.val + s.size) (h3 : s.val + s.size < 2 ^ 64)
    (h4 : val - s.val < 2 ^ 32) :
    (backend_split_symbol (some { o with symbol_table := some (pre ++ s :: post) })
        s.ptr name val type flags fresh).map (fun r => backend_merge_symbol r.2 fresh)
      = some (some s.ptr, some { o with symbol_table := some (pre ++ s :: post) }) := by
  have hfs : fresh ≠ s.ptr := fun h => hfresh s (by simp) h.symm
  obtain ⟨e1, e2, e3⟩ := split_sizes_of_small_offset s.val s.size val h1 h2 h3 h4
  rw [split_symbol_at o s pre post src name val type flags fresh hptr hfs hsrc, e2, e1]
  have hptr2 : ((pre ++ { s with size := val - s.val } ::
      ({ ptr := fresh, name := name, val := val, type := type,
         size := s.size - (val - s.val), flags := flags, sec := s.sec,
         src := some src } : backend_symbol) :: post).map (fun x => x.ptr)).Nodup := by
    rw [List.map_append, List.map_cons, List.nodup_append] at hptr
    obtain ⟨hpre, hps, hdisj⟩ := hptr
    rw [List.nodup_cons] at hps
    rw [List.map_append, List.map_cons, List.map_cons, List.nodup_append]
    refine ⟨hpre, ?_, ?_⟩
    · rw [List.nodup_cons, List.nodup_cons]
      refine ⟨?_, ?_, hps.2⟩
      · intro hmem
        rcases List.mem_cons.mp hmem with h | h
        · exact hfs h.symm
        · exact hps.1 h
      · intro hmem
        obtain ⟨x, hx, hxp⟩ := List.mem_map.mp hmem
        exact hfresh x (by simp [hx]) hxp
    · intro a ha hb
      rcases List.mem_cons.mp hb with h | h
      · exact hdisj ha (by rw [h]; exact List.mem_cons_self _ _)
      · rcases List.mem_cons.mp h with h | h
        · obtain ⟨x, hx, hxp⟩ := List.mem_map.mp ha
          exact hfresh x (by simp [hx]) (hxp.trans h)
        · exact hdisj ha (List.mem_cons_of_mem _ h)
  have hname2 : ∀ x ∈ pre ++ [{ s with size := val - s.val }],
      x.name ≠ backend_symbol.name
        { ptr := fresh, name := name, val := val, type := type,
          size := s.size - (val - s.val), flags := flags, sec := s.sec,
          src := some src } := by
    intro x hx
    rcases List.mem_append.mp hx with hx | hx
    · exact hname x (List.mem_append_left _ hx)
    · rw [List.mem_singleton] at hx
      rw [hx]
      exact hname s (List.mem_append_right _ (List.mem_singleton_self _))
  have hm := merge_symbol_of_distinct_names o { s with size := val - s.val }
    { ptr := fresh, name := name, val := val, type := type,
      size := s.size - (val - s.val), flags := flags, sec := s.sec, src := some src }
    pre post hptr2 hname2
  simp only [e3] at hm
  simp only [Option.map_some']
  exact congrArg some hm

/-! ## `backend_merge_symbol` -/

/-- C3, evaluated on the code: merging the second of two neighbours that are
both named "!" returns the address of the predecessor (1), but `ll_remove`,
searching by name, has unlinked and freed that very predecessor: the table
after the call holds only the symbol passed in, with its old size 0x10, and the
returned address is no entry of it. -/
theorem merge_symbol_same_name_frees_predecessor :
    backend_merge_symbol (object_of_symbols merge_same_name_table) 2
        = (some 1, object_of_symbols [mk_symbol 2 "!" 0x120 0x10 none]) ∧
      deref [mk_symbol 2 "!" 0x120 0x10 none] 1 = none := by
  decide

/-- C4, evaluated on the code: merging the third entry of x, y, x grows y to
`(0x140 + 0x10) - 0x120 = 0x30` and then removes the first entry called "x"
instead of the third: the symbol passed in (address 3) is still an entry and
still what the lookup of "x" returns, and the unrelated entry at address 1 is
gone. -/
theorem merge_symbol_removes_other_entry_of_same_name :
    backend_merge_symbol (object_of_symbols merge_dup_table) 3
        = (some 2, object_of_symbols
            [mk_symbol 2 "y" 0x120 0x30 none, mk_symbol 3 "x" 0x140 0x10 none]) ∧
      backend_find_symbol_by_name
          (backend_merge_symbol (object_of_symbols merge_dup_table) 3).2 "x"
        = some (mk_symbol 3 "x" 0x140 0x10 none) ∧
      backend_symbol_count (backend_merge_symbol (object_of_symbols merge_dup_table) 3).2
        = 2 := by
  decide

/-! ## `backend_split_symbol` -/

/-- C5, evaluated on the code: splitting the 8 GiB symbol F(val=0,
size=0x200000000) at 0x100000000 passes `val - sym->val` through the
`unsigned int newsize`, which truncates it to 0: the new symbol gets the whole
size 0x200000000 and F is left with size 0 (the claim: 0x100000000 each).  On
the symbol of the split scenario with a source file the sizes are 0x20 and
0x20; without one (`src` is `NULL`) the call is `strdup(NULL)`. -/
theorem split_symbol_truncates_offset :
    backend_split_symbol (object_of_symbols [split_big]) 1 "G" 0x100000000
        backend_symbol_type.SYMBOL_TYPE_FUNCTION 0 2
      = some (some 2, object_of_symbols
          [mk_symbol 1 "F" 0 0 (some "f.c"),
           mk_symbol 2 "G" 0x100000000 0x200000000 (some "f.c")]) ∧
    backend_split_symbol (object_of_symbols [split_F (some "f.c")]) 1 "G" 0x220
        backend_symbol_type.SYMBOL_TYPE_FUNCTION 0 2
      = some (some 2, object_of_symbols
          [mk_symbol 1 "F" 0x200 0x20 (some "f.c"),
           mk_symbol 2 "G" 0x220 0x20 (some "f.c")]) ∧
    backend_split_symbol (object_of_symbols [split_F none]) 1 "G" 0x220
        backend_symbol_type.SYMBOL_TYPE_FUNCTION 0 2
      = none := by
  decide

/-- C6, evaluated on the code: splitting the 8 GiB symbol F(val=0,
size=0x200000000), which has a source file, at 0x100000000 and merging the new
symbol back returns F (address 1) but leaves it with size 0x300000000, not the
0x200000000 it had before the split.  And splitting F(val=0x200, size=0x40) at
0x220 under the name "F" again and merging the new symbol back returns the
address of F after the by-name removal has freed F: the table is left with the
new symbol alone. -/
theorem split_then_merge_does_not_restore_size :
    (backend_split_symbol (object_of_symbols [split_big]) 1 "G" 0x100000000
        backend_symbol_type.SYMBOL_TYPE_FUNCTION 0 2).map
        (fun r => backend_merge_symbol r.2 2)
      = some (some 1, object_of_symbols [mk_symbol 1 "F" 0 0x300000000 (some "f.c")]) ∧
    (backend_split_symbol (object_of_symbols [split_F (some "f.c")]) 1 "F" 0x220
        backend_symbol_type.SYMBOL_TYPE_FUNCTION 0 2).map
        (fun r => backend_merge_symbol r.2 2)
      = some (some 1, object_of_symbols [mk_symbol 2 "F" 0x220 0x20 (some "f.c")]) := by
  decide

/-! ## `backend_sort_symbols` -/

/-- The inner loop, started at position `done.length` of the table
`done ++ rest` with `i` the node before it, places `bs` by `sort_insert` in
the part `rest` and leaves `done` in front. -/
theorem sort_symbols_place_eq (cmp : backend_symbol → backend_symbol → Int)
    (bs : backend_symbol) :
    ∀ (rest done : List backend_symbol) (i : Option Nat) (pos : Nat),
      pos = done.length →
      ((done = [] ∧ i = none) ∨ (done ≠ [] ∧ i = some (done.length - 1))) →
      sort_symbols_place cmp bs (done ++ rest) rest i pos
        = done ++ sort_insert cmp bs rest := by
  intro rest
  induction rest with
  | nil =>
    intro done i pos _ _
    simp [sort_symbols_place, ll_add, sort_insert]
  | cons ss r ih =>
    intro done i pos hpos hi
    by_cases hc : cmp bs ss < 0
    · simp only [sort_symbols_place, sort_insert, if_pos hc]
      rcases hi with ⟨rfl, rfl⟩ | ⟨hne, rfl⟩
      · simp [ll_push]
      · have hlen : done.length - 1 + 1 = done.length :=
          Nat.sub_add_cancel (List.length_pos.mpr hne)
        simp [ll_insert, hlen]
    · simp only [sort_symbols_place, sort_insert, if_neg hc]
      have h := ih (done ++ [ss]) (some pos) (pos + 1) (by simp [hpos])
        (Or.inr ⟨by simp, by simp [hpos]⟩)
      simpa using h

/-- One round of the outer loop. -/
theorem sort_symbols_loop_cons (cmp : backend_symbol → backend_symbol → Int)
    (bs : backend_symbol) (rest new_table : List backend_symbol) :
    sort_symbols_loop cmp (bs :: rest) new_table
      = sort_symbols_loop cmp rest (sort_insert cmp bs new_table) := by
  have h := sort_symbols_place_eq cmp bs new_table [] none 0 rfl (Or.inl ⟨rfl, rfl⟩)
  simp only [List.nil_append] at h
  simp only [sort_symbols_loop, h]

/-- Placing `bs` adds it to the table and changes nothing else. -/
theorem sort_insert_perm (cmp : backend_symbol → backend_symbol → Int)
    (bs : backend_symbol) (l : List backend_symbol) :
    (sort_insert cmp bs l).Perm (bs :: l) := by
  induction l with
  | nil => exact List.Perm.refl _
  | cons ss r ih =>
    unfold sort_insert
    split_ifs with hc
    · exact List.Perm.refl _
    · exact (List.Perm.cons ss ih).trans (List.Perm.swap bs ss r)

/-- The entries after placing `bs` are `bs` and the entries before. -/
theorem sort_insert_mem (cmp : backend_symbol → backend_symbol → Int)
    (bs x : backend_symbol) (l : List backend_symbol) :
    x ∈ sort_insert cmp bs l ↔ x = bs ∨ x ∈ l := by
  rw [(sort_insert_perm cmp bs l).mem_iff, List.mem_cons]

/-- Placing `bs` keeps the entries before in their order. -/
theorem sort_insert_sublist (cmp : backend_symbol → backend_symbol → Int)
    (bs : backend_symbol) (l : List backend_symbol) :
    l.Sublist (sort_insert cmp bs l) := by
  induction l with
  | nil => exact List.nil_sublist _
  | cons ss r ih =>
    unfold sort_insert
    split_ifs with hc
    · exact List.sublist_cons_self _ _
    · exact List.Sublist.cons₂ ss ih

/-- Placing `bs` in an ordered table gives an ordered table. -/
theorem sort_insert_pairwise {cmp : backend_symbol → backend_symbol → Int}
    (h : ConsistentPreorder cmp) (bs : backend_symbol) (l : List backend_symbol)
    (hp : l.Pairwise (fun a b => cmp a b ≤ 0)) :
    (sort_insert cmp bs l).Pairwise (fun a b => cmp a b ≤ 0) := by
  induction l with
  | nil => simp [sort_insert]
  | cons ss r ih =>
    obtain ⟨h1, h2⟩ := List.pairwise_cons.mp hp
    unfold sort_insert
    split_ifs with hc
    · refine List.Pairwise.cons ?_ hp
      intro x hx
      rcases List.mem_cons.mp hx with rfl | hx
      · exact le_of_lt hc
      · exact h.trans _ _ _ (le_of_lt hc) (h1 x hx)
    · refine List.Pairwise.cons ?_ (ih h2)
      intro x hx
      rcases (sort_insert_mem cmp bs x r).mp hx with rfl | hx
      · by_contra hn
        exact hc ((h.antisymm x ss).mpr (not_le.mp hn))
      · exact h1 x hx

/-- An entry `a` of a sorted table that compares equal to `bs` ends up in
front of `bs`. -/
theorem sort_insert_after_equal {cmp : backend_symbol → backend_symbol → Int}
    (h : ConsistentPreorder cmp) (bs a : backend_symbol) (l : List backend_symbol)
    (hp : l.Pairwise (fun a b => cmp a b ≤ 0)) (ha : a ∈ l)
    (hab : cmp a bs = 0) (hba : cmp bs a = 0) :
    [a, bs].Sublist (sort_insert cmp bs l) := by
  induction l with
  | nil => simp at ha
  | cons ss r ih =>
    obtain ⟨h1, h2⟩ := List.pairwise_cons.mp hp
    unfold sort_insert
    split_ifs with hc
    · exfalso
      rcases List.mem_cons.mp ha with rfl | ha
      · omega
      · have h3 : cmp ss bs ≤ 0 := h.trans ss a bs (h1 a ha) (le_of_eq hab)
        have h4 : 0 < cmp ss bs := (h.antisymm bs ss).mp hc
        omega
    · rcases List.mem_cons.mp ha with rfl | ha
      · exact List.Sublist.cons₂ a
          (List.singleton_sublist.mpr ((sort_insert_mem cmp bs bs r).mpr (Or.inl rfl)))
      · exact List.Sublist.cons ss (ih h2 ha)

/-- The outer loop moves every remaining entry into the new table. -/
theorem sort_symbols_loop_perm (cmp : backend_symbol → backend_symbol → Int) :
    ∀ rest new_table : List backend_symbol,
      (sort_symbols_loop cmp rest new_table).Perm (rest ++ new_table) := by
  intro rest
  induction rest with
  | nil => intro new_table; exact List.Perm.refl _
  | cons bs r ih =>
    intro new_table
    rw [sort_symbols_loop_cons]
    refine (ih _).trans ?_
    refine ((sort_insert_perm cmp bs new_table).append_left r).trans ?_
    exact List.perm_middle

/-- The outer loop keeps the new table ordered. -/
theorem sort_symbols_loop_pairwise {cmp : backend_symbol → backend_symbol → Int}
    (h : ConsistentPreorder cmp) :
    ∀ rest new_table : List backend_symbol,
      new_table.Pairwise (fun a b => cmp a b ≤ 0) →
      (sort_symbols_loop cmp rest new_table).Pairwise (fun a b => cmp a b ≤ 0) := by
  intro rest
  induction rest with
  | nil => intro new_table hp; exact hp
  | cons bs r ih =>
    intro new_table hp
    rw [sort_symbols_loop_cons]
    exact ih _ (sort_insert_pairwise h bs new_table hp)

/-- Two entries that compare equal keep their order through the outer loop,
wherever they stand: both already placed, one placed and one still to come, or
both still to come. -/
theorem sort_symbols_loop_stable {cmp : backend_symbol → backend_symbol → Int}
    (h : ConsistentPreorder cmp) (a b : backend_symbol)
    (hab : cmp a b = 0) (hba : cmp b a = 0) :
    ∀ rest new_table : List backend_symbol,
      new_table.Pairwise (fun a b => cmp a b ≤ 0) →
      ([a, b].Sublist new_table ∨ (a ∈ new_table ∧ b ∈ rest) ∨ [a, b].Sublist rest) →
      [a, b].Sublist (sort_symbols_loop cmp rest new_table) := by
  intro rest
  induction rest with
  | nil =>
    intro new_table _ hcase
    rcases hcase with h1 | ⟨_, h2⟩ | h3
    · exact h1
    · simp at h2
    · simp at h3
  | cons bs r ih =>
    intro new_table hp hcase
    rw [sort_symbols_loop_cons]
    refine ih _ (sort_insert_pairwise h bs new_table hp) ?_
    rcases hcase with h1 | ⟨ha, hb⟩ | h3
    · exact Or.inl (h1.trans (sort_insert_sublist cmp bs new_table))
    · rcases List.mem_cons.mp hb with rfl | hb
      · exact Or.inl (sort_insert_after_equal h b a new_table hp ha hab hba)
      · exact Or.inr (Or.inl ⟨(sort_insert_mem cmp bs a new_table).mpr (Or.inr ha), hb⟩)
    · cases h3 with
      | cons _ h4 => exact Or.inr (Or.inr h4)
      | cons₂ _ h4 =>
        exact Or.inr (Or.inl ⟨(sort_insert_mem cmp a a new_table).mpr (Or.inl rfl),
          List.singleton_sublist.mp h4⟩)

/-- The comparator by value is a consistent total preorder. -/
theorem cmp_by_val_preorder : ConsistentPreorder cmp_by_val :=
  ⟨fun a b => by unfold cmp_by_val; omega, fun a b c => by unfold cmp_by_val; omega⟩

/-- C7: on an object with a symbol table and a comparator that is a consistent
total preorder, `backend_sort_symbols` returns 0 and every adjacent pair
`(a, b)` of the new table has `cmp a b ≤ 0`. -/
theorem sort_symbols_adjacent_ordered (o : backend_object) (tbl : List backend_symbol)
    (cmp : backend_symbol → backend_symbol → Int) (h : ConsistentPreorder cmp) :
    ∃ new_table : List backend_symbol,
      backend_sort_symbols (some { o with symbol_table := some tbl }) cmp
        = (0, some { o with symbol_table := some new_table }) ∧
      new_table.Chain' (fun a b => cmp a b ≤ 0) :=
  ⟨sort_symbols_loop cmp tbl [], rfl,
    (sort_symbols_loop_pairwise h tbl [] List.Pairwise.nil).chain'⟩

/-- The theorem for C7 at the comparator by value and a table with repeated
values. -/
theorem sort_symbols_adjacent_ordered_witness :
    ConsistentPreorder cmp_by_val ∧
      ∃ new_table : List backend_symbol,
        backend_sort_symbols (some { symbol_table := some unsorted_table }) cmp_by_val
          = (0, some { symbol_table := some new_table }) ∧
        new_table.Chain' (fun a b => cmp_by_val a b ≤ 0) :=
  ⟨cmp_by_val_preorder,
    sort_symbols_adjacent_ordered {} unsorted_table cmp_by_val cmp_by_val_preorder⟩

/-- C8: `backend_sort_symbols` is stable.  For a comparator that is a consistent
total preorder and two entries `a`, `b` with `cmp a b = 0` and `cmp b a = 0`, if
`a` stands before `b` in the table before the sort then `a` stands before `b`
in the table after it. -/
theorem sort_symbols_stable (o : backend_object) (tbl : List backend_symbol)
    (cmp : backend_symbol → backend_symbol → Int) (h : ConsistentPreorder cmp)
    (a b : backend_symbol) (hab : cmp a b = 0) (hba : cmp b a = 0)
    (hbefore : [a, b].Sublist tbl) :
    ∃ new_table : List backend_symbol,
      backend_sort_symbols (some { o with symbol_table := some tbl }) cmp
        = (0, some { o with symbol_table := some new_table }) ∧
      [a, b].Sublist new_table :=
  ⟨sort_symbols_loop cmp tbl [], rfl,
    sort_symbols_loop_stable h a b hab hba tbl [] List.Pairwise.nil (Or.inr (Or.inr hbefore))⟩

/-- The theorem for C8 at the comparator by value and the two entries of value
10 of a table with repeated values. -/
theorem sort_symbols_stable_witness :
    ConsistentPreorder cmp_by_val ∧
      cmp_by_val (mk_symbol 2 "b" 10 0 none) (mk_symbol 4 "d" 10 0 none) = 0 ∧
      cmp_by_val (mk_symbol 4 "d" 10 0 none) (mk_symbol 2 "b" 10 0 none) = 0 ∧
      [mk_symbol 2 "b" 10 0 none, mk_symbol 4 "d" 10 0 none].Sublist unsorted_table ∧
      ∃ new_table : List backend_symbol,
        backend_sort_symbols (some { symbol_table := some unsorted_table }) cmp_by_val
          = (0, some { symbol_table := some new_table }) ∧
        [mk_symbol 2 "b" 10 0 none, mk_symbol 4 "d" 10 0 none].Sublist new_table :=
  ⟨cmp_by_val_preorder, by decide, by decide, by decide,
    sort_symbols_stable {} unsorted_table cmp_by_val cmp_by_val_preorder
      (mk_symbol 2 "b" 10 0 none) (mk_symbol 4 "d" 10 0 none) (by decide) (by decide)
      (by decide)⟩

/-- C9: for any comparator whatsoever, `backend_sort_symbols` on an object with
a symbol table returns 0 and the new table is a permutation of the old one: the
same entries, none duplicated and none dropped, and the same symbol count. -/
theorem sort_symbols_permutation (o : backend_object) (tbl : List backend_symbol)
    (cmp : backend_symbol → backend_symbol → Int) :
    ∃ new_table : List backend_symbol,
      backend_sort_symbols (some { o with symbol_table := some tbl }) cmp
        = (0, some { o with symbol_table := some new_table }) ∧
      new_table.Perm tbl ∧
      backend_symbol_count (backend_sort_symbols (some { o with symbol_table := some tbl }) cmp).2
        = backend_symbol_count (some { o with symbol_table := some tbl }) := by
  have hperm : (sort_symbols_loop cmp tbl []).Perm tbl := by
    simpa using sort_symbols_loop_perm cmp tbl []
  exact ⟨sort_symbols_loop cmp tbl [], rfl, hperm, congrArg to_uint hperm.length_eq⟩

/-! ## `backend_find_symbol_by_val` -/

/-- The test of the loop, as a proposition: an exact hit on a symbol of size
zero, or `bs.val ≤ val` and `val` below the 64-bit sum `bs.val + bs.size`. -/
theorem symbol_holds_val_iff (bs : backend_symbol) (val : Nat) :
    symbol_holds_val bs val = true ↔
      (bs.size = 0 ∧ bs.val = val) ∨
        (bs.val ≤ val ∧ val < (bs.val + bs.size) % 2 ^ 64) := by
  simp only [symbol_holds_val, uadd, ULONG, Bool.or_eq_true, Bool.and_eq_true, beq_iff_eq,
    decide_eq_true_eq, ge_iff_le]
  constructor
  · rintro (⟨h1, h2⟩ | h)
    · exact Or.inl ⟨h1, h2.symm⟩
    · exact Or.inr h
  · rintro (⟨h1, h2⟩ | h)
    · exact Or.inl ⟨h1, h2.symm⟩
    · exact Or.inr h

/-- The loop returns the first entry that passes the test, and `NULL` exactly
when no entry passes. -/
theorem find_symbol_by_val_loop_first (val : Nat) (tbl : List backend_symbol) :
    (∃ s pre post, find_symbol_by_val_loop val tbl = some s ∧ tbl = pre ++ s :: post ∧
        symbol_holds_val s val = true ∧ ∀ x ∈ pre, ¬ symbol_holds_val x val = true) ∨
      (find_symbol_by_val_loop val tbl = none ∧
        ∀ x ∈ tbl, ¬ symbol_holds_val x val = true) := by
  induction tbl with
  | nil => exact Or.inr ⟨rfl, fun x hx => by simp at hx⟩
  | cons bs r ih =>
    by_cases hb : symbol_holds_val bs val = true
    · refine Or.inl ⟨bs, [], r, ?_, rfl, hb, fun x hx => by simp at hx⟩
      simp only [find_symbol_by_val_loop, if_pos hb]
    · have hstep : find_symbol_by_val_loop val (bs :: r) = find_symbol_by_val_loop val r := by
        simp only [find_symbol_by_val_loop, if_neg hb]
      rcases ih with ⟨s, pre, post, h1, h2, h3, h4⟩ | ⟨h1, h2⟩
      · refine Or.inl ⟨s, bs :: pre, post, hstep.trans h1, by rw [h2]; rfl, h3, ?_⟩
        intro x hx
        rcases List.mem_cons.mp hx with rfl | hx
        · exact hb
        · exact h4 x hx
      · refine Or.inr ⟨hstep.trans h1, ?_⟩
        intro x hx
        rcases List.mem_cons.mp hx with rfl | hx
        · exact hb
        · exact h2 x hx

/-- C10, as stated, fails: the two-byte symbol at address `2 ^ 64 - 1` has
`v = 2 ^ 64 - 1` in its half-open interval `[s.val, s.val + s.size)`, yet
`backend_find_symbol_by_val` returns `NULL` for it, because the code forms
`s.val + s.size` in 64-bit arithmetic, where it wraps to 1. -/
theorem find_symbol_by_val_misses_wrapping_extent :
    (top_symbol.val ≤ 0xFFFFFFFFFFFFFFFF ∧
        0xFFFFFFFFFFFFFFFF < top_symbol.val + top_symbol.size) ∧
      backend_find_symbol_by_val (object_of_symbols [top_symbol]) 0xFFFFFFFFFFFFFFFF
        = none := by
  decide

/-- C10, amended: with the end of the interval taken as the 64-bit sum
`(s.val + s.size) % 2 ^ 64`, for every object and every value `v`,
`backend_find_symbol_by_val` returns the first symbol `s` in insertion order
with `s.size = 0 ∧ s.val = v` or `s.val ≤ v < (s.val + s.size) % 2 ^ 64`, and it
returns `NULL` exactly when no symbol of the table is such; without an object or
without a table it returns `NULL`. -/
theorem find_symbol_by_val_first_match (o : backend_object) (tbl : List backend_symbol)
    (v : Nat) :
    ((∃ s pre post,
          backend_find_symbol_by_val (some { o with symbol_table := some tbl }) v = some s ∧
          tbl = pre ++ s :: post ∧
          ((s.size = 0 ∧ s.val = v) ∨ (s.val ≤ v ∧ v < (s.val + s.size) % 2 ^ 64)) ∧
          ∀ x ∈ pre,
            ¬ ((x.size = 0 ∧ x.val = v) ∨ (x.val ≤ v ∧ v < (x.val + x.size) % 2 ^ 64))) ∨
        (backend_find_symbol_by_val (some { o with symbol_table := some tbl }) v = none ∧
          ∀ x ∈ tbl,
            ¬ ((x.size = 0 ∧ x.val = v) ∨ (x.val ≤ v ∧ v < (x.val + x.size) % 2 ^ 64)))) ∧
      backend_find_symbol_by_val (some { o with symbol_table := none }) v = none ∧
      backend_find_symbol_by_val none v = none := by
  refine ⟨?_, rfl, rfl⟩
  rcases find_symbol_by_val_loop_first v tbl with ⟨s, pre, post, h1, h2, h3, h4⟩ | ⟨h1, h2⟩
  · exact Or.inl ⟨s, pre, post, h1, h2, (symbol_holds_val_iff s v).mp h3,
      fun x hx hP => h4 x hx ((symbol_holds_val_iff x v).mpr hP)⟩
  · exact Or.inr ⟨h1, fun x hx hP => h2 x hx ((symbol_holds_val_iff x v).mpr hP)⟩

/-! ## `backend_add_symbol` with the lookups by name and by index -/

/-- The lookup by name runs past the entries of another name. -/
theorem find_symbol_by_name_loop_append (name : String) (s : backend_symbol)
    (post : List backend_symbol) (hs : s.name = name) :
    ∀ pre : List backend_symbol, (∀ x ∈ pre, x.name ≠ name) →
      find_symbol_by_name_loop name (pre ++ s :: post) = some s := by
  intro pre
  induction pre with
  | nil =>
    intro _
    have h0 : strcmp s.name name = 0 := (strcmp_eq_zero_iff _ _).mpr hs
    simp only [List.nil_append, find_symbol_by_name_loop, if_pos h0]
  | cons x r ih =>
    intro hpre
    have hx : ¬ strcmp x.name name = 0 := fun h =>
      hpre x (List.mem_cons_self _ _) ((strcmp_eq_zero_iff _ _).mp h)
    show find_symbol_by_name_loop name (x :: (r ++ s :: post)) = some s
    rw [find_symbol_by_name_loop, if_neg hx]
    exact ih (fun y hy => hpre y (List.mem_cons_of_mem _ hy))

/-- The index loop counts the entries in front of the entry at the address
`p`, as long as the count stays below `2 ^ 32`. -/
theorem get_symbol_index_loop_at (p : Nat) (s : backend_symbol)
    (post : List backend_symbol) (hs : s.ptr = p) :
    ∀ (pre : List backend_symbol) (count : Nat), (∀ x ∈ pre, x.ptr ≠ p) →
      count + pre.length < UINT →
      get_symbol_index_loop p (pre ++ s :: post) count = count + pre.length := by
  intro pre
  induction pre with
  | nil =>
    intro count _ _
    simp only [List.nil_append, get_symbol_index_loop, if_pos hs, List.length_nil, Nat.add_zero]
  | cons x r ih =>
    intro count hpre hlen
    have hx : ¬ x.ptr = p := hpre x (List.mem_cons_self _ _)
    rw [List.length_cons] at hlen
    have hc : to_uint (count + 1) = count + 1 := Nat.mod_eq_of_lt (by omega)
    show get_symbol_index_loop p (x :: (r ++ s :: post)) count = _
    rw [get_symbol_index_loop, if_neg hx, hc,
      ih (count + 1) (fun y hy => hpre y (List.mem_cons_of_mem _ hy)) (by omega),
      List.length_cons]
    omega

/-- The index loop ends with the sentinel when no entry is at the address. -/
theorem get_symbol_index_loop_absent (p : Nat) :
    ∀ (l : List backend_symbol) (count : Nat), (∀ x ∈ l, x.ptr ≠ p) →
      get_symbol_index_loop p l count = UINT - 1 := by
  intro l
  induction l with
  | nil => intro _ _; rfl
  | cons x r ih =>
    intro count h
    have hx : ¬ x.ptr = p := h x (List.mem_cons_self _ _)
    rw [get_symbol_index_loop, if_neg hx]
    exact ih _ (fun y hy => h y (List.mem_cons_of_mem _ hy))

/-- The walk of the lookup by index reaches the node at position `n`, or leaves
with `NULL` beyond the end. -/
theorem find_symbol_by_index_walk_eq :
    ∀ (n : Nat) (l : List backend_symbol),
      find_symbol_by_index_walk n l = if n ≤ l.length then some (l.drop n) else none := by
  intro n
  induction n with
  | zero => intro l; simp [find_symbol_by_index_walk]
  | succ k ih =>
    intro l
    cases l with
    | nil => simp [find_symbol_by_index_walk]
    | cons x r => simp [find_symbol_by_index_walk, ih r]

/-- The lookup by index is the positional lookup in the table. -/
theorem find_symbol_by_index_eq (o : backend_object) (tbl : List backend_symbol)
    (index : Nat) :
    backend_find_symbol_by_index (some { o with symbol_table := some tbl }) index
      = tbl[index]? := by
  simp only [backend_find_symbol_by_index, ll_iter_start, find_symbol_by_index_walk_eq]
  by_cases h : index ≤ tbl.length
  · rw [if_pos h]
    cases hd : tbl.drop index with
    | nil =>
      have hlen : tbl.length ≤ index := List.drop_eq_nil_iff.mp hd
      simp [List.getElem?_eq_none hlen]
    | cons x r =>
      have h1 : (tbl.drop index)[0]? = some x := by rw [hd]; simp
      rw [List.getElem?_drop] at h1
      simpa using h1.symm
  · rw [if_neg h]
    simp [List.getElem?_eq_none (by omega : tbl.length ≤ index)]

/-- The index loop returns the count plus the position of the entry, in a table
with pairwise distinct addresses, as long as that stays below `2 ^ 32`. -/
theorem get_symbol_index_loop_pos :
    ∀ (tbl : List backend_symbol) (i count : Nat) (s : backend_symbol),
      (tbl.map (fun x => x.ptr)).Nodup → tbl[i]? = some s → count + i < UINT →
      get_symbol_index_loop s.ptr tbl count = count + i := by
  intro tbl
  induction tbl with
  | nil => intro i count s _ h _; simp at h
  | cons e r ih =>
    intro i count s hnd h hlt
    rw [List.map_cons, List.nodup_cons] at hnd
    cases i with
    | zero =>
      have he : e = s := by simpa using h
      rw [get_symbol_index_loop, if_pos (by rw [he]), Nat.add_zero]
    | succ j =>
      have hj : r[j]? = some s := by simpa using h
      have hmem : s ∈ r := List.mem_iff_getElem?.mpr ⟨j, hj⟩
      have hne : ¬ e.ptr = s.ptr := fun heq =>
        hnd.1 (by rw [heq]; exact List.mem_map_of_mem (fun x => x.ptr) hmem)
      have hc : to_uint (count + 1) = count + 1 := Nat.mod_eq_of_lt (by omega)
      rw [get_symbol_index_loop, if_neg hne, hc, ih j (count + 1) s hnd.2 hj (by omega)]
      omega

/-- C11, as stated, fails: on a table that already holds a symbol added without
a name (so called "!"), adding another symbol without a name returns the new
record (address 2), but the lookup of its name "!" returns the older entry at
address 1. -/
theorem add_symbol_lookup_finds_older_entry :
    (backend_add_symbol (object_of_symbols [mk_symbol 1 "!" 0x100 0 none]) none 0x200
        backend_symbol_type.SYMBOL_TYPE_FUNCTION 0 0 none 2).1 = some 2 ∧
      backend_find_symbol_by_name
          (backend_add_symbol (object_of_symbols [mk_symbol 1 "!" 0x100 0 none]) none 0x200
            backend_symbol_type.SYMBOL_TYPE_FUNCTION 0 0 none 2).2 "!"
        = some (mk_symbol 1 "!" 0x100 0 none) := by
  decide

/-- C11, amended: for every object in which no symbol carries the name yet,
the symbol returned by `backend_add_symbol` is the entry that
`backend_find_symbol_by_name` returns for its name, the name being the given
one or "!" when the given name is `NULL`. -/
theorem add_symbol_found_by_name (o : backend_object) (name : Option String) (val : Nat)
    (type : backend_symbol_type) (size flags : Nat) (sec : Option Nat) (fresh : Nat)
    (hnew : ∀ x ∈ ll_iter_start o.symbol_table, x.name ≠ name.getD "!") :
    (backend_add_symbol (some o) name val type size flags sec fresh).1 = some fresh ∧
      backend_find_symbol_by_name
          (backend_add_symbol (some o) name val type size flags sec fresh).2 (name.getD "!")
        = some { ptr := fresh, name := name.getD "!", val := val, type := type, size := size,
                 flags := flags, sec := sec, src := none } := by
  refine ⟨rfl, ?_⟩
  have hfind : ∀ tbl : List backend_symbol, (∀ x ∈ tbl, x.name ≠ name.getD "!") →
      find_symbol_by_name_loop (name.getD "!")
          (tbl ++ [{ ptr := fresh, name := name.getD "!", val := val, type := type,
                     size := size, flags := flags, sec := sec, src := none }])
        = some { ptr := fresh, name := name.getD "!", val := val, type := type, size := size,
                 flags := flags, sec := sec, src := none } :=
    fun tbl h => find_symbol_by_name_loop_append (name.getD "!")
      { ptr := fresh, name := name.getD "!", val := val, type := type, size := size,
        flags := flags, sec := sec, src := none } [] rfl tbl h
  cases ht : o.symbol_table with
  | none =>
    simp only [backend_add_symbol, backend_find_symbol_by_name, ll_iter_start, ll_add, ll_init,
      ht]
    exact hfind [] (fun x hx => by simp at hx)
  | some tbl =>
    rw [ht] at hnew
    simp only [backend_add_symbol, backend_find_symbol_by_name, ll_iter_start, ll_add, ht]
    exact hfind tbl hnew

/-- The theorem for C11 at the table s10, s20, s30 and the new name "main". -/
theorem add_symbol_found_by_name_witness :
    (∀ x ∈ ll_iter_start (some nearest_table), x.name ≠ (some "main").getD "!") ∧
      backend_find_symbol_by_name
          (backend_add_symbol (object_of_symbols nearest_table) (some "main") 0x400
            backend_symbol_type.SYMBOL_TYPE_FUNCTION 8 0 none 4).2 "main"
        = some { ptr := 4, name := "main", val := 0x400,
                 type := backend_symbol_type.SYMBOL_TYPE_FUNCTION, size := 8, flags := 0,
                 sec := none, src := none } :=
  ⟨by decide,
    (add_symbol_found_by_name { symbol_table := some nearest_table } (some "main") 0x400
      backend_symbol_type.SYMBOL_TYPE_FUNCTION 8 0 none 4 (by decide)).2⟩

/-- C12: for every non-null object whose table, with the new entry, has fewer
than `2 ^ 32` entries (so that the `unsigned int` count holds the new size) and
a fresh address for the new record, after `backend_add_symbol` the table is the
old table with the new symbol `s` appended as its last entry, the symbol count
has grown by exactly one, and `backend_get_symbol_index` of `s` is the symbol
count minus one. -/
theorem add_symbol_is_last (o : backend_object) (name : Option String) (val : Nat)
    (type : backend_symbol_type) (size flags : Nat) (sec : Option Nat) (fresh : Nat)
    (hfresh : ∀ x ∈ ll_iter_start o.symbol_table, x.ptr ≠ fresh)
    (hlen : (ll_iter_start o.symbol_table).length + 1 < 2 ^ 32) :
    ∃ (s : backend_symbol) (o1 : backend_object),
      backend_add_symbol (some o) name val type size flags sec fresh = (some fresh, some o1) ∧
      s.ptr = fresh ∧
      o1.symbol_table = some (ll_iter_start o.symbol_table ++ [s]) ∧
      backend_symbol_count (some o1) = backend_symbol_count (some o) + 1 ∧
      backend_get_symbol_index (some o1) (some s.ptr) = backend_symbol_count (some o1) - 1 := by
  have hidx : ∀ (tbl : List backend_symbol) (s : backend_symbol), s.ptr = fresh →
      (∀ x ∈ tbl, x.ptr ≠ fresh) → tbl.length < 2 ^ 32 →
      get_symbol_index_loop s.ptr (tbl ++ [s]) 0 = tbl.length := by
    intro tbl s hs hf hl
    have h := get_symbol_index_loop_at s.ptr s [] rfl tbl 0 (by rw [hs]; exact hf)
      (by unfold UINT; omega)
    rw [h, Nat.zero_add]
  have hs0 : ∃ s0 : backend_symbol, s0 =
      { ptr := fresh, name := name.getD "!", val := val, type := type, size := size,
        flags := flags, sec := sec, src := none } := ⟨_, rfl⟩
  obtain ⟨s0, hs0⟩ := hs0
  have hp0 : s0.ptr = fresh := by rw [hs0]
  refine ⟨s0, { o with symbol_table := some (ll_iter_start o.symbol_table ++ [s0]) },
    ?_, hp0, rfl, ?_, ?_⟩
  · rw [hs0]
    unfold backend_add_symbol
    cases ht : o.symbol_table <;> simp [ll_iter_start, ll_add, ll_init, ht]
  · have h1 : to_uint ((ll_iter_start o.symbol_table).length + 1)
        = (ll_iter_start o.symbol_table).length + 1 := Nat.mod_eq_of_lt hlen
    have h0 : to_uint (ll_iter_start o.symbol_table).length
        = (ll_iter_start o.symbol_table).length :=
      Nat.mod_eq_of_lt (show _ < 2 ^ 32 by omega)
    cases ht : o.symbol_table with
    | none => simp [backend_symbol_count, ll_size, ll_iter_start, ht, to_uint, UINT]
    | some tbl =>
      rw [ht] at h1 h0
      simp only [ll_iter_start] at h1 h0
      simp [backend_symbol_count, ll_size, ll_iter_start, ht, h1, h0]
  · have h := hidx (ll_iter_start o.symbol_table) s0 hp0 hfresh (by omega)
    have h1 : to_uint ((ll_iter_start o.symbol_table).length + 1)
        = (ll_iter_start o.symbol_table).length + 1 := Nat.mod_eq_of_lt hlen
    simp only [backend_get_symbol_index, backend_symbol_count, ll_size,
      List.length_append, List.length_singleton, h1, Nat.add_sub_cancel]
    exact h

/-- The theorem for C12 at the table s10, s20, s30 and the fresh address 4. -/
theorem add_symbol_is_last_witness :
    (∀ x ∈ ll_iter_start (some nearest_table), x.ptr ≠ 4) ∧
      (ll_iter_start (some nearest_table)).length + 1 < 2 ^ 32 ∧
      ∃ (s : backend_symbol) (o1 : backend_object),
        backend_add_symbol (object_of_symbols nearest_table) none 0x400
            backend_symbol_type.SYMBOL_TYPE_FUNCTION 8 0 none 4 = (some 4, some o1) ∧
        s.ptr = 4 ∧
        o1.symbol_table = some (ll_iter_start (some nearest_table) ++ [s]) ∧
        backend_symbol_count (some o1)
          = backend_symbol_count (object_of_symbols nearest_table) + 1 ∧
        backend_get_symbol_index (some o1) (some s.ptr) = backend_symbol_count (some o1) - 1 :=
  ⟨by decide, by decide,
    add_symbol_is_last { symbol_table := some nearest_table } none 0x400
      backend_symbol_type.SYMBOL_TYPE_FUNCTION 8 0 none 4 (by decide) (by decide)⟩

/-- C13: for every object whose table has pairwise distinct addresses and
fewer than `2 ^ 32` entries (so that the `unsigned int` count and index hold the
size and every position): the index of an entry is its zero-based position `i`,
and the lookup by index at `i` returns that entry; the index of a pointer that
is no entry, or of `NULL`, or without an object or a table, is the sentinel
`2 ^ 32 - 1`; the lookup by index returns `NULL` for every index from the symbol
count on, also without a table or an object, where the count is 0. -/
theorem symbol_index_is_position (o : backend_object) (tbl : List backend_symbol)
    (hptr : (tbl.map (fun x => x.ptr)).Nodup) (hlen : tbl.length < 2 ^ 32) :
    (∀ (i : Nat) (s : backend_symbol), tbl[i]? = some s →
        backend_get_symbol_index (some { o with symbol_table := some tbl }) (some s.ptr) = i ∧
        backend_find_symbol_by_index (some { o with symbol_table := some tbl }) i = some s) ∧
      (∀ p : Nat, (∀ x ∈ tbl, x.ptr ≠ p) →
        backend_get_symbol_index (some { o with symbol_table := some tbl }) (some p)
          = 2 ^ 32 - 1) ∧
      backend_get_symbol_index (some { o with symbol_table := some tbl }) none = 2 ^ 32 - 1 ∧
      (∀ s : Option Nat,
        backend_get_symbol_index (some { o with symbol_table := none }) s = 2 ^ 32 - 1 ∧
        backend_get_symbol_index none s = 2 ^ 32 - 1) ∧
      (∀ index : Nat, backend_symbol_count (some { o with symbol_table := some tbl }) ≤ index →
        backend_find_symbol_by_index (some { o with symbol_table := some tbl }) index = none) ∧
      (∀ index : Nat, backend_symbol_count (some { o with symbol_table := none }) ≤ index →
        backend_find_symbol_by_index (some { o with symbol_table := none }) index = none) ∧
      (∀ index : Nat, backend_symbol_count none ≤ index →
        backend_find_symbol_by_index none index = none) ∧
      backend_symbol_count (some { o with symbol_table := some tbl }) = tbl.length := by
  have hcount : backend_symbol_count (some { o with symbol_table := some tbl }) = tbl.length :=
    Nat.mod_eq_of_lt hlen
  refine ⟨?_, ?_, rfl, fun s => ⟨rfl, rfl⟩, ?_, fun _ _ => rfl, fun _ _ => rfl, hcount⟩
  · intro i s hi
    refine ⟨?_, ?_⟩
    · have hlt : i < tbl.length := (List.getElem?_eq_some_iff.mp hi).1
      have h := get_symbol_index_loop_pos tbl i 0 s hptr hi (by unfold UINT; omega)
      simp only [backend_get_symbol_index, ll_iter_start, h, Nat.zero_add]
    · rw [find_symbol_by_index_eq, hi]
  · intro p hp
    simp only [backend_get_symbol_index, ll_iter_start, get_symbol_index_loop_absent p tbl 0 hp]
    rfl
  · intro index hidx
    rw [find_symbol_by_index_eq]
    rw [hcount] at hidx
    exact List.getElem?_eq_none hidx

/-- The theorem for C13 at the table s10, s20, s30. -/
theorem symbol_index_is_position_witness :
    (nearest_table.map (fun x => x.ptr)).Nodup ∧ nearest_table.length < 2 ^ 32 ∧
      backend_get_symbol_index (object_of_symbols nearest_table)
          (some (mk_symbol 2 "s20" 20 0 none).ptr) = 1 ∧
      backend_find_symbol_by_index (object_of_symbols nearest_table) 1
        = some (mk_symbol 2 "s20" 20 0 none) :=
  ⟨by decide, by decide,
    (symbol_index_is_position {} nearest_table (by decide) (by decide)).1 1
      (mk_symbol 2 "s20" 20 0 none) (by decide)⟩

/-! ## The backend registry -/

/-- C14: for every registry whose descriptors all have a `format` callback (as
`backend_register` ensures) and every object, `backend_write` returns -1 when
no registered backend has the format of the object, in particular on the empty
registry; -2 when the first registered backend of that format has no `write`
callback; and otherwise the result of `write(obj, obj->name)` of that backend. -/
theorem backend_write_dispatch (backend : List backend_ops) (obj : backend_object)
    (h : ∀ be ∈ backend, be.format ≠ none) :
    backend_write obj backend
        = some (match backend.find? (fun be => decide (be.format = some obj.type)) with
          | none => -1
          | some be =>
            match be.write with
            | none => -2
            | some wr => wr obj obj.name) ∧
      backend_write obj [] = some (-1) := by
  refine ⟨?_, rfl⟩
  induction backend with
  | nil => rfl
  | cons be rest ih =>
    have hrest := ih (fun x hx => h x (List.mem_cons_of_mem _ hx))
    cases hf : be.format with
    | none => exact absurd hf (h be (List.mem_cons_self _ _))
    | some t =>
      by_cases ht : t = obj.type
      · have hd : decide (be.format = some obj.type) = true := by simp [hf, ht]
        simp only [List.find?_cons, hd]
        cases hw : be.write <;> simp [backend_write, hf, ht, hw]
      · have hd : decide (be.format = some obj.type) = false := by simp [hf, ht]
        simp only [List.find?_cons, hd]
        rw [← hrest]
        simp [backend_write, hf, ht]

/-- The theorem for C14 at the registry mz, elf64 and an ELF64 object. -/
theorem backend_write_dispatch_witness :
    (∀ be ∈ [mz_backend, elf64_backend], be.format ≠ none) ∧
      backend_write { type := backend_type.OBJECT_TYPE_ELF64 } [mz_backend, elf64_backend]
        = some 0 ∧
      backend_write { type := backend_type.OBJECT_TYPE_MZ } [mz_backend, elf64_backend]
        = some (-2) ∧
      backend_write { type := backend_type.OBJECT_TYPE_PE } [mz_backend, elf64_backend]
        = some (-1) :=
  ⟨by decide,
    (backend_write_dispatch [mz_backend, elf64_backend]
      { type := backend_type.OBJECT_TYPE_ELF64 } (by decide)).1.trans rfl,
    rfl, rfl⟩

/-- C15, as stated, fails: on the empty registry a descriptor with a `format`
callback and without a `name` callback is neither rejected nor appended; the
call `be->name()` for the log line goes through a null pointer. -/
theorem register_without_name_is_undefined :
    ([] : List backend_ops).length < BACKEND_COUNT ∧ nameless_backend.format ≠ none ∧
      backend_register [] nameless_backend = none := by
  refine ⟨by decide, by decide, rfl⟩

/-- The registry keeps at most `BACKEND_COUNT` descriptors, each with a
`format` callback, through one `backend_register`. -/
theorem backend_register_invariant (backend backend1 : List backend_ops) (be : backend_ops)
    (hlen : backend.length ≤ BACKEND_COUNT) (hfmt : ∀ x ∈ backend, x.format ≠ none)
    (hreg : backend_register backend be = some backend1) :
    backend1.length ≤ BACKEND_COUNT ∧ ∀ x ∈ backend1, x.format ≠ none := by
  unfold backend_register at hreg
  split_ifs at hreg with hfull
  · cases hreg; exact ⟨hlen, hfmt⟩
  · cases hf : be.format with
    | none => rw [hf] at hreg; cases hreg; exact ⟨hlen, hfmt⟩
    | some t =>
      rw [hf] at hreg
      cases hn : be.name with
      | none => rw [hn] at hreg; cases hreg
      | some n =>
        rw [hn] at hreg
        cases hreg
        refine ⟨by rw [List.length_append, List.length_singleton]; omega, ?_⟩
        intro x hx
        rcases List.mem_append.mp hx with hx | hx
        · exact hfmt x hx
        · rw [List.mem_singleton] at hx
          rw [hx, hf]
          exact Option.some_ne_none t

/-- The invariant of the registry through a sequence of `backend_register`
calls. -/
theorem register_all_invariant :
    ∀ (bes backend backend1 : List backend_ops),
      backend.length ≤ BACKEND_COUNT → (∀ x ∈ backend, x.format ≠ none) →
      register_all backend bes = some backend1 →
      backend1.length ≤ BACKEND_COUNT ∧ ∀ x ∈ backend1, x.format ≠ none := by
  intro bes
  induction bes with
  | nil =>
    intro backend backend1 hlen hfmt hreg
    simp only [register_all, Option.some.injEq] at hreg
    rw [← hreg]
    exact ⟨hlen, hfmt⟩
  | cons be rest ih =>
    intro backend backend1 hlen hfmt hreg
    unfold register_all at hreg
    cases h1 : backend_register backend be with
    | none => rw [h1] at hreg; cases hreg
    | some b1 =>
      rw [h1] at hreg
      obtain ⟨hl1, hf1⟩ := backend_register_invariant backend b1 be hlen hfmt h1
      exact ih b1 backend1 hl1 hf1 hreg

/-- C15, amended: `backend_register` leaves the registry unchanged when it
already holds `BACKEND_COUNT` descriptors or when the descriptor has no `format`
callback; otherwise, for a descriptor that has a `name` callback, it appends the
descriptor at the end.  Consequently, in every state reached from the empty
registry by a sequence of register calls, the registry holds at most
`BACKEND_COUNT` descriptors and each of them has a `format` callback. -/
theorem backend_register_behaviour (backend : List backend_ops) (be : backend_ops) :
    (backend.length ≥ BACKEND_COUNT ∨ be.format = none →
        backend_register backend be = some backend) ∧
      (backend.length < BACKEND_COUNT → be.format ≠ none → be.name ≠ none →
        backend_register backend be = some (backend ++ [be])) ∧
      (∀ bes backend1 : List backend_ops, register_all [] bes = some backend1 →
        backend1.length ≤ BACKEND_COUNT ∧ ∀ x ∈ backend1, x.format ≠ none) := by
  refine ⟨?_, ?_, ?_⟩
  · intro h
    unfold backend_register
    split_ifs with hfull
    · rfl
    · rcases h with h | h
      · exact absurd h hfull
      · rw [h]
  · intro hlen hf hn
    unfold backend_register
    rw [if_neg (by omega)]
    cases hf1 : be.format with
    | none => exact absurd hf1 hf
    | some t =>
      cases hn1 : be.name with
      | none => exact absurd hn1 hn
      | some n => rfl
  · intro bes backend1 hreg
    exact register_all_invariant bes [] backend1 (Nat.zero_le _)
      (fun x hx => by simp at hx) hreg

/-- The theorem for C15 at a sequence of six registrations, one of them of a
descriptor without a `format` callback: four descriptors are kept. -/
theorem backend_register_behaviour_witness :
    register_all []
        [mz_backend, formatless_backend, elf64_backend, pe_backend, mz_backend, elf64_backend]
      = some [mz_backend, elf64_backend, pe_backend, mz_backend] ∧
    [mz_backend, elf64_backend, pe_backend, mz_backend].length ≤ BACKEND_COUNT ∧
    ∀ x ∈ [mz_backend, elf64_backend, pe_backend, mz_backend], x.format ≠ none :=
  ⟨rfl,
    (backend_register_behaviour [] mz_backend).2.2
      [mz_backend, formatless_backend, elf64_backend, pe_backend, mz_backend, elf64_backend]
      [mz_backend, elf64_backend, pe_backend, mz_backend] rfl⟩

/-- With a `read` callback in every descriptor, `backend_read` offers the file
to the backends in registration order and returns the first object built,
`NULL` when no backend builds one. -/
theorem backend_read_first_claim (filename : String) (backend : List backend_ops)
    (h : ∀ be ∈ backend, be.read ≠ none) :
    backend_read filename backend
      = some (backend.findSome? (fun be => be.read.bind (fun rd => rd filename))) := by
  induction backend with
  | nil => rfl
  | cons be rest ih =>
    have hrest := ih (fun x hx => h x (List.mem_cons_of_mem _ hx))
    cases hr : be.read with
    | none => exact absurd hr (h be (List.mem_cons_self _ _))
    | some rd =>
      cases hres : rd filename with
      | none => simp [backend_read, List.findSome?, hr, hres, hrest]
      | some obj => simp [backend_read, List.findSome?, hr, hres]

/-- C16, evaluated on the code: with the write-only backend "pe" registered in
front of "elf64", `backend_read` calls the null `read` pointer of "pe"; it
neither returns `NULL` nor goes on to "elf64", which would build an object. -/
theorem backend_read_calls_null_reader :
    backend_read "a.out" [pe_backend, elf64_backend] = none ∧
      backend_read "a.out" [pe_backend] = none ∧
      backend_read "a.out" [elf64_backend]
        = some (some { name := some "a.out", type := backend_type.OBJECT_TYPE_ELF64 }) ∧
      backend_read "a.out" [] = some none :=
  ⟨rfl, rfl, rfl, rfl⟩

/-- C17: for every registry whose descriptors all have a `format` callback,
`backend_lookup_target` returns `OBJECT_TYPE_NONE` for a `NULL` name, and for a
name it returns the format tag of the first registered backend whose `name()`
equals it, `OBJECT_TYPE_NONE` when there is no such backend. -/
theorem backend_lookup_target_first_match (backend : List backend_ops)
    (h : ∀ be ∈ backend, be.format ≠ none) :
    backend_lookup_target backend none = some backend_type.OBJECT_TYPE_NONE ∧
      ∀ name : String, ∃ t : backend_type,
        backend_lookup_target backend (some name) = some t ∧
        match backend.find? (fun be => decide (be.name = some name)) with
        | none => t = backend_type.OBJECT_TYPE_NONE
        | some be => be.format = some t := by
  refine ⟨rfl, ?_⟩
  intro name
  induction backend with
  | nil => exact ⟨backend_type.OBJECT_TYPE_NONE, rfl, rfl⟩
  | cons be rest ih =>
    obtain ⟨t, ht1, ht2⟩ := ih (fun x hx => h x (List.mem_cons_of_mem _ hx))
    have hstep : ∀ hne : be.name ≠ some name,
        backend_lookup_target (be :: rest) (some name) = backend_lookup_target rest (some name) := by
      intro hne
      cases hn : be.name with
      | none => simp [backend_lookup_target, lookup_target_loop, hn]
      | some n =>
        have hs : ¬ strcmp n name = 0 := fun h0 =>
          hne (by rw [hn, (strcmp_eq_zero_iff _ _).mp h0])
        simp [backend_lookup_target, lookup_target_loop, hn, hs]
    by_cases hm : be.name = some name
    · cases hf : be.format with
      | none => exact absurd hf (h be (List.mem_cons_self _ _))
      | some t0 =>
        refine ⟨t0, ?_, ?_⟩
        · have hs : strcmp name name = 0 := (strcmp_eq_zero_iff _ _).mpr rfl
          simp [backend_lookup_target, lookup_target_loop, hm, hs, hf]
        · have hd : decide (be.name = some name) = true := by simp [hm]
          simp only [List.find?_cons, hd]
          exact hf
    · refine ⟨t, (hstep hm).trans ht1, ?_⟩
      have hd : decide (be.name = some name) = false := by simp [hm]
      simp only [List.find?_cons, hd]
      exact ht2

/-- The theorem for C17 at the registry mz, elf64, pe and the name "elf64". -/
theorem backend_lookup_target_first_match_witness :
    (∀ be ∈ [mz_backend, elf64_backend, pe_backend], be.format ≠ none) ∧
      backend_lookup_target [mz_backend, elf64_backend, pe_backend] (some "elf64")
        = some backend_type.OBJECT_TYPE_ELF64 ∧
      backend_lookup_target [mz_backend, elf64_backend, pe_backend] (some "coff")
        = some backend_type.OBJECT_TYPE_NONE ∧
      backend_lookup_target [mz_backend, elf64_backend, pe_backend] none
        = some backend_type.OBJECT_TYPE_NONE :=
  ⟨by decide, by decide, by decide,
    (backend_lookup_target_first_match [mz_backend, elf64_backend, pe_backend]
      (by decide)).1⟩

/-! ## Typed iteration over sections -/

/-- The scan for a type stays where it is at a node of that type. -/
theorem section_type_scan_idem (t : Nat) :
    ∀ l : List backend_section,
      section_type_scan t (section_type_scan t l) = section_type_scan t l := by
  intro l
  induction l with
  | nil => rfl
  | cons sec rest ih =>
    by_cases h : sec.type ≠ t
    · simp only [section_type_scan, if_pos h, ih]
    · simp only [section_type_scan, if_neg h]

/-- On an object with a section table, `backend_get_next_section_by_type` right
after `backend_get_first_section_by_type` returns the same result again and
leaves the cursor where it was. -/
theorem get_next_section_by_type_repeats (o : backend_object) (tbl : List backend_section)
    (t : Nat) :
    backend_get_next_section_by_type
        (backend_get_first_section_by_type { o with section_table := some tbl } t).2 t
      = backend_get_first_section_by_type { o with section_table := some tbl } t := by
  simp only [backend_get_next_section_by_type, backend_get_first_section_by_type,
    section_type_scan_idem]

/-- C18, evaluated on the code: on the sections .text (type 1), .data (type 2),
.init (type 1), the iteration for type 1 yields .text and then .text again on
every `backend_get_next_section_by_type`, which does not step off the current
node before it scans: .init and the final `NULL` never come.  The symbol
iteration on f (FUNCTION), v (OBJECT), g (FUNCTION) for the type FUNCTION yields
f, g, `NULL`. -/
theorem section_type_iteration_repeats_first :
    (backend_get_first_section_by_type { section_table := some typed_sections } 1).1
        = some (mk_section 1 ".text" 1 0x100 0x1000) ∧
      (backend_get_next_section_by_type
          (backend_get_first_section_by_type { section_table := some typed_sections } 1).2 1).1
        = some (mk_section 1 ".text" 1 0x100 0x1000) ∧
      (backend_get_next_section_by_type
          (backend_get_next_section_by_type
            (backend_get_first_section_by_type
              { section_table := some typed_sections } 1).2 1).2 1).1
        = some (mk_section 1 ".text" 1 0x100 0x1000) ∧
      (backend_get_symbol_by_type_first { symbol_table := some typed_symbols }
          backend_symbol_type.SYMBOL_TYPE_FUNCTION).1
        = some (mk_symbol 1 "f" 0x1000 0x10 none) ∧
      ∃ o1 o2 : backend_object,
        backend_get_symbol_by_type_next
            (backend_get_symbol_by_type_first { symbol_table := some typed_symbols }
              backend_symbol_type.SYMBOL_TYPE_FUNCTION).2
            backend_symbol_type.SYMBOL_TYPE_FUNCTION
          = some (some (mk_symbol 3 "g" 0x1010 0x10 none), o1) ∧
        backend_get_symbol_by_type_next o1 backend_symbol_type.SYMBOL_TYPE_FUNCTION
          = some (none, o2) :=
  ⟨by decide, by decide, by decide, by decide, _, _, rfl, rfl⟩

/-! ## `backend_find_section_by_val` -/

/-- The test of the loop, as a proposition. -/
theorem section_holds_val_iff (sec : backend_section) (val : Nat) :
    section_holds_val sec val = true ↔
      (sec.address ≤ val ∧ val < (sec.address + sec.size) % 2 ^ 64) := by
  simp only [section_holds_val, uadd, ULONG, Bool.and_eq_true, decide_eq_true_eq, gt_iff_lt]

/-- The loop returns the first section that passes the test, and `NULL` exactly
when no section passes. -/
theorem find_section_by_val_loop_first (val : Nat) (tbl : List backend_section) :
    (∃ s pre post, find_section_by_val_loop val tbl = some s ∧ tbl = pre ++ s :: post ∧
        section_holds_val s val = true ∧ ∀ x ∈ pre, ¬ section_holds_val x val = true) ∨
      (find_section_by_val_loop val tbl = none ∧
        ∀ x ∈ tbl, ¬ section_holds_val x val = true) := by
  induction tbl with
  | nil => exact Or.inr ⟨rfl, fun x hx => by simp at hx⟩
  | cons sec r ih =>
    by_cases hb : section_holds_val sec val = true
    · refine Or.inl ⟨sec, [], r, ?_, rfl, hb, fun x hx => by simp at hx⟩
      simp only [find_section_by_val_loop, if_pos hb]
    · have hstep : find_section_by_val_loop val (sec :: r) = find_section_by_val_loop val r := by
        simp only [find_section_by_val_loop, if_neg hb]
      rcases ih with ⟨s, pre, post, h1, h2, h3, h4⟩ | ⟨h1, h2⟩
      · refine Or.inl ⟨s, sec :: pre, post, hstep.trans h1, by rw [h2]; rfl, h3, ?_⟩
        intro x hx
        rcases List.mem_cons.mp hx with rfl | hx
        · exact hb
        · exact h4 x hx
      · refine Or.inr ⟨hstep.trans h1, ?_⟩
        intro x hx
        rcases List.mem_cons.mp hx with rfl | hx
        · exact hb
        · exact h2 x hx

/-- C19, as stated, fails: the two-byte section at address `2 ^ 64 - 1` has
`v = 2 ^ 64 - 1` in its half-open range `[address, address + size)`, yet
`backend_find_section_by_val` returns `NULL` for it, because the code forms
`address + size` in 64-bit arithmetic, where it wraps to 1. -/
theorem find_section_by_val_misses_wrapping_extent :
    (top_section.address ≤ 0xFFFFFFFFFFFFFFFF ∧
        0xFFFFFFFFFFFFFFFF < top_section.address + top_section.size) ∧
      backend_find_section_by_val { section_table := some [top_section] } 0xFFFFFFFFFFFFFFFF
        = none := by
  decide

/-- C19, amended: with the end of the range taken as the 64-bit sum
`(address + size) % 2 ^ 64`, for every object with a section table and every
address `v`, `backend_find_section_by_val` returns the first section in
insertion order with `address ≤ v < (address + size) % 2 ^ 64`, and `NULL` when
there is none; for a section at 0x1000 of size 0x100 the address 0x1080 finds it
and 0x1100 does not. -/
theorem find_section_by_val_first_match (o : backend_object) (tbl : List backend_section)
    (v : Nat) :
    ((∃ s pre post,
          backend_find_section_by_val { o with section_table := some tbl } v = some s ∧
          tbl = pre ++ s :: post ∧
          (s.address ≤ v ∧ v < (s.address + s.size) % 2 ^ 64) ∧
          ∀ x ∈ pre, ¬ (x.address ≤ v ∧ v < (x.address + x.size) % 2 ^ 64)) ∨
        (backend_find_section_by_val { o with section_table := some tbl } v = none ∧
          ∀ x ∈ tbl, ¬ (x.address ≤ v ∧ v < (x.address + x.size) % 2 ^ 64))) ∧
      backend_find_section_by_val
          { o with section_table := some [mk_section 1 ".text" 1 0x100 0x1000] } 0x1080
        = some (mk_section 1 ".text" 1 0x100 0x1000) ∧
      backend_find_section_by_val
          { o with section_table := some [mk_section 1 ".text" 1 0x100 0x1000] } 0x1100
        = none := by
  refine ⟨?_, rfl, rfl⟩
  rcases find_section_by_val_loop_first v tbl with ⟨s, pre, post, h1, h2, h3, h4⟩ | ⟨h1, h2⟩
  · exact Or.inl ⟨s, pre, post, h1, h2, (section_holds_val_iff s v).mp h3,
      fun x hx hP => h4 x hx ((section_holds_val_iff x v).mpr hP)⟩
  · exact Or.inr ⟨h1, fun x hx hP => h2 x hx ((section_holds_val_iff x v).mpr hP)⟩

/-! ## `backend_get_section_by_index`, `backend_get_section_index_by_name` -/

/-- The loop of the lookup by index, started with the counter `i`, returns the
section `index - i` places further on, without overflow as long as the counter
stays within `INT_MAX`. -/
theorem get_section_by_index_loop_eq (index : Nat) :
    ∀ (l : List backend_section) (i : Nat), i + l.length ≤ INT_MAX →
      get_section_by_index_loop index l i
        = some (if i ≤ index then l[index - i]? else none) := by
  intro l
  induction l with
  | nil => intro i _; simp [get_section_by_index_loop]
  | cons sec r ih =>
    intro i hlen
    rw [List.length_cons] at hlen
    have hmax : ¬ i ≥ INT_MAX := by omega
    have hi : to_uint i = i := Nat.mod_eq_of_lt (by unfold INT_MAX at hlen; unfold UINT; omega)
    by_cases h : i = index
    · rw [get_section_by_index_loop, if_neg hmax, hi, if_pos h, if_pos (by omega), h,
        Nat.sub_self]
      simp
    · rw [get_section_by_index_loop, if_neg hmax, hi, if_neg h, ih (i + 1) (by omega)]
      by_cases h2 : i ≤ index
      · have h3 : index - i = (index - (i + 1)) + 1 := by omega
        rw [if_pos (by omega), if_pos h2, h3, List.getElem?_cons_succ]
      · rw [if_neg (by omega), if_neg h2]

/-- The loop of the lookup of an index by name returns the counter plus the
one-based position of the first section of that name, without overflow as long
as the counter stays below `INT_MAX`. -/
theorem get_section_index_by_name_loop_at (name : String) (sec : backend_section)
    (post : List backend_section) (hs : sec.name = name) :
    ∀ (pre : List backend_section) (index : Int), (∀ x ∈ pre, x.name ≠ name) →
      index + pre.length < (INT_MAX : Int) →
      get_section_index_by_name_loop name (pre ++ sec :: post) index
        = some (index + pre.length + 1) := by
  intro pre
  induction pre with
  | nil =>
    intro index _ hlt
    have h0 : strcmp name sec.name = 0 := (strcmp_eq_zero_iff _ _).mpr hs.symm
    have hmax : ¬ index ≥ (INT_MAX : Int) := by
      simp only [List.length_nil] at hlt
      omega
    simp only [List.nil_append, get_section_index_by_name_loop, if_neg hmax, if_pos h0,
      List.length_nil]
    congr 1
    omega
  | cons x r ih =>
    intro index hpre hlt
    have hx : ¬ strcmp name x.name = 0 := fun h =>
      hpre x (List.mem_cons_self _ _) ((strcmp_eq_zero_iff _ _).mp h).symm
    rw [List.length_cons] at hlt
    push_cast at hlt
    have hmax : ¬ index ≥ (INT_MAX : Int) := by omega
    show get_section_index_by_name_loop name (x :: (r ++ sec :: post)) index = _
    rw [get_section_index_by_name_loop, if_neg hmax, if_neg hx,
      ih (index + 1) (fun y hy => hpre y (List.mem_cons_of_mem _ hy)) (by omega),
      List.length_cons]
    congr 1
    push_cast
    omega

/-- C20: section indices are 1-based.  For every object with a table of `n`
sections, `n + 1` below `2 ^ 31` so that the `int` counters of the loops do not
overflow, `backend_get_section_by_index` returns the `k`-th section in insertion
order for `1 ≤ k ≤ n` and `NULL` for `k = 0` and for `k > n`; for the first
section `sec` of a name, the lookup by index at
`backend_get_section_index_by_name` of that name returns `sec`; and for an
object without a section table, which has no sections, the lookup by index
returns `NULL` for every index. -/
theorem section_index_is_one_based (o : backend_object) (tbl : List backend_section)
    (hlen : tbl.length + 1 < 2 ^ 31) :
    (∀ k : Nat, 1 ≤ k → k ≤ tbl.length →
        backend_get_section_by_index { o with section_table := some tbl } k
          = some tbl[k - 1]? ∧
        (tbl[k - 1]?).isSome) ∧
      backend_get_section_by_index { o with section_table := some tbl } 0 = some none ∧
      (∀ k : Nat, tbl.length < k →
        backend_get_section_by_index { o with section_table := some tbl } k = some none) ∧
      (∀ (pre post : List backend_section) (sec : backend_section),
        tbl = pre ++ sec :: post → (∀ x ∈ pre, x.name ≠ sec.name) →
        (backend_get_section_index_by_name
            (some { o with section_table := some tbl }) (some sec.name)).bind
          (fun r =>
            backend_get_section_by_index { o with section_table := some tbl } (int_to_uint r))
          = some (some sec)) ∧
      (∀ k : Nat,
        backend_get_section_by_index { o with section_table := none } k = some none) := by
  have hloop : ∀ k : Nat,
      backend_get_section_by_index { o with section_table := some tbl } k
        = some (if 1 ≤ k then tbl[k - 1]? else none) := by
    intro k
    simp only [backend_get_section_by_index, ll_iter_start]
    exact get_section_by_index_loop_eq k tbl 1 (by unfold INT_MAX; omega)
  refine ⟨?_, ?_, ?_, ?_, ?_⟩
  · intro k h1 h2
    rw [hloop k, if_pos h1]
    refine ⟨rfl, ?_⟩
    rw [List.getElem?_eq_getElem (by omega : k - 1 < tbl.length)]
    rfl
  · rw [hloop 0]
    rfl
  · intro k hk
    rw [hloop k, if_pos (by omega)]
    exact congrArg some (List.getElem?_eq_none (by omega))
  · intro pre post sec htbl hpre
    have hpl : pre.length + 1 ≤ tbl.length := by
      rw [htbl, List.length_append, List.length_cons]
      omega
    have hidx : backend_get_section_index_by_name
        (some { o with section_table := some tbl }) (some sec.name)
          = some ((pre.length + 1 : Nat) : Int) := by
      simp only [backend_get_section_index_by_name, ll_iter_start]
      rw [htbl, get_section_index_by_name_loop_at sec.name sec post rfl pre 0 hpre
        (by unfold INT_MAX; push_cast; omega)]
      congr 1
      push_cast
      omega
    have hconv : int_to_uint ((pre.length + 1 : Nat) : Int) = pre.length + 1 := by
      unfold int_to_uint UINT
      omega
    have hget : tbl[pre.length]? = some sec := by
      rw [htbl, List.getElem?_append_right (Nat.le_refl _), Nat.sub_self]
      simp
    rw [hidx, Option.some_bind, hconv, hloop (pre.length + 1), if_pos (by omega),
      Nat.add_sub_cancel, hget]
  · intro k
    rfl

/-- The theorem for C20 at the sections .text, .data, .init. -/
theorem section_index_is_one_based_witness :
    typed_sections.length + 1 < 2 ^ 31 ∧
      backend_get_section_by_index { section_table := some typed_sections } 1
        = some (some (mk_section 1 ".text" 1 0x100 0x1000)) ∧
      backend_get_section_by_index { section_table := some typed_sections } 3
        = some (some (mk_section 3 ".init" 1 0x20 0x3000)) ∧
      backend_get_section_by_index { section_table := some typed_sections } 0 = some none ∧
      backend_get_section_by_index { section_table := some typed_sections } 4 = some none ∧
      backend_get_section_index_by_name (some { section_table := some typed_sections })
          (some ".data") = some 2 :=
  ⟨by decide, by decide, by decide,
    (section_index_is_one_based {} typed_sections (by decide)).2.1, by decide, by decide⟩

/-! ## `backend_import_symbol_count` -/

/-- Two increments of an `unsigned int` counter, seen as one. -/
theorem to_uint_succ_add (c k : Nat) : to_uint (to_uint (c + 1) + k) = to_uint (c + 1 + k) := by
  unfold to_uint
  exact Nat.mod_add_mod _ _ _

/-- The modules in front of the first empty one hold no more symbols than the
whole table. -/
theorem import_table_leading_le_total :
    ∀ tbl : List backend_import, import_table_leading tbl ≤ import_table_total tbl := by
  intro tbl
  induction tbl with
  | nil => exact Nat.le_refl _
  | cons i rest ih =>
    unfold import_table_leading import_table_total
    cases h : ll_iter_start i.symbols with
    | nil => exact Nat.zero_le _
    | cons s ss => simp only [List.length_cons]; omega

/-- The loop of the count, with the cursors at the symbol `s` of the module
`m`: it counts `s`, the symbols `ss` behind it in the module, and the symbols of
the modules `ms` in front of the first empty one, given that many rounds and
one more. -/
theorem import_symbol_count_loop_eq (t : List backend_import) :
    ∀ (fuel : Nat) (o : backend_object) (m : backend_import) (ms : List backend_import)
      (s : backend_symbol) (ss : List backend_symbol) (count : Nat),
      ss.length + import_table_leading ms + 1 ≤ fuel →
      import_symbol_count_loop fuel (some s)
          { o with import_table := some t, iter_import_table := m :: ms,
                   iter_import_symbol := s :: ss } count
        = some (to_uint (count + 1 + (ss.length + import_table_leading ms))) := by
  intro fuel
  induction fuel with
  | zero => intro o m ms s ss count h; omega
  | succ fuel ih =>
    intro o m ms s ss count h
    cases ss with
    | cons s1 ss1 =>
      have hstep := ih o m ms s1 ss1 (to_uint (count + 1))
        (by simp only [List.length_cons] at h; omega)
      simp only [import_symbol_count_loop, backend_get_next_import]
      rw [hstep, Nat.add_assoc (to_uint (count + 1)), to_uint_succ_add, List.length_cons]
      congr 2
      omega
    | nil =>
      cases ms with
      | nil =>
        simp only [import_symbol_count_loop, backend_get_next_import, import_table_leading,
          List.length_nil, Nat.add_zero]
      | cons m1 ms1 =>
        cases hs : ll_iter_start m1.symbols with
        | nil =>
          simp only [import_symbol_count_loop, backend_get_next_import, import_table_leading,
            hs, List.length_nil, Nat.add_zero]
        | cons s1 ss1 =>
          have hl : import_table_leading (m1 :: ms1)
              = (s1 :: ss1).length + import_table_leading ms1 := by
            simp only [import_table_leading, hs]
          rw [hl] at h ⊢
          have hstep := ih o m1 ms1 s1 ss1 (to_uint (count + 1))
            (by simp only [List.length_cons, List.length_nil] at h; omega)
          simp only [import_symbol_count_loop, backend_get_next_import, hs]
          rw [hstep, Nat.add_assoc (to_uint (count + 1)), to_uint_succ_add, List.length_cons,
            List.length_nil]
          congr 2
          omega

/-- What `backend_import_symbol_count` returns: the number of imported symbols
of the modules in front of the first module without symbols, as an
`unsigned int`; 0 without an import table or without an object. -/
theorem import_symbol_count_eq_leading (o : backend_object) (tbl : List backend_import) :
    backend_import_symbol_count (some { o with import_table := some tbl })
        = some (to_uint (import_table_leading tbl)) ∧
      backend_import_symbol_count (some { o with import_table := none }) = some 0 ∧
      backend_import_symbol_count none = some 0 := by
  refine ⟨?_, ?_, rfl⟩
  · cases tbl with
    | nil => rfl
    | cons m ms =>
      have h1 : ll_iter_start (some (m :: ms)) = m :: ms := rfl
      cases hs : ll_iter_start m.symbols with
      | nil =>
        simp only [backend_import_symbol_count, backend_get_first_import, h1,
          import_table_leading, hs, import_symbol_count_loop]
        rfl
      | cons s ss =>
        have hle := import_table_leading_le_total ms
        have hloop := import_symbol_count_loop_eq (m :: ms)
          (import_table_total (m :: ms)) o m ms s ss 0
          (by simp only [import_table_total, hs, List.length_cons]; omega)
        have hl : import_table_leading (m :: ms)
            = (s :: ss).length + import_table_leading ms := by
          simp only [import_table_leading, hs]
        simp only [backend_import_symbol_count, backend_get_first_import, h1, hs]
        rw [hl, List.length_cons, hloop]
        congr 2
        omega
  · simp only [backend_import_symbol_count, backend_get_first_import, ll_iter_start,
      import_table_total, import_symbol_count_loop]

/-- C21, evaluated on the code: with the modules M1 = [a, b], M2 = [], M3 = [c]
the object holds three imported symbols and `backend_import_symbol_count`
returns 2: the flat iteration it counts with ends at the empty module M2.  With
an empty module in front the count is 0. -/
theorem import_symbol_count_stops_at_empty_module :
    import_table_total (ll_iter_start import_object.import_table) = 3 ∧
      backend_import_symbol_count (some import_object) = some 2 ∧
      backend_import_symbol_count (some import_object_empty_first) = some 0 := by
  decide

/-! ## The frame and the sizes of `backend_split_symbol` -/

/-- The size arithmetic of the split conserves the size modulo `2 ^ 64`,
whatever the split point: what the 32-bit `newsize` takes from the old size is
what the symbol keeps. -/
theorem split_sizes_conserved (ssize sval val : Nat) :
    (usub ssize (to_uint (usub val sval)) + to_uint (usub val sval)) % 2 ^ 64
      = ssize % 2 ^ 64 := by
  have hn : to_uint (usub val sval) < 2 ^ 32 := Nat.mod_lt _ (by decide)
  generalize to_uint (usub val sval) = n at hn
  unfold usub ULONG
  omega

/-- For an entry `s` with a source file, in a table with pairwise distinct
addresses and with a fresh address for the new record, and for every split
point: the size of the new symbol plus the size left to `s` is the size `s` had
before, modulo `2 ^ 64`. -/
theorem split_symbol_conserves_size (o : backend_object) (s : backend_symbol)
    (pre post : List backend_symbol) (src name : String) (val : Nat)
    (type : backend_symbol_type) (flags fresh : Nat)
    (hptr : ((pre ++ s :: post).map (fun x => x.ptr)).Nodup)
    (hfresh : fresh ≠ s.ptr) (hsrc : s.src = some src) :
    ∃ s1 new : backend_symbol,
      backend_split_symbol (some { o with symbol_table := some (pre ++ s :: post) })
          s.ptr name val type flags fresh
        = some (some fresh, some { o with symbol_table := some (pre ++ s1 :: new :: post) }) ∧
      s1.ptr = s.ptr ∧ new.ptr = fresh ∧
      (new.size + s1.size) % 2 ^ 64 = s.size % 2 ^ 64 :=
  ⟨_, _, split_symbol_at o s pre post src name val type flags fresh hptr hfresh hsrc,
    rfl, rfl, split_sizes_conserved s.size s.val val⟩

/-- C22, evaluated on the code: splitting the middle symbol F of A, F, B when F
has no source file (`src` is `NULL`, as `backend_add_symbol` leaves it) is the
call `strdup(NULL)`: no symbol is inserted and none returned.  When F has the
source file "f.c" the new symbol G stands right behind F, with the given name,
value, type and flags and with the section and source file of F, and A, B and
the other fields of F are as before. -/
theorem split_symbol_without_source_is_undefined :
    backend_split_symbol (object_of_symbols (frame_table none)) 2 "G" 0x220
        backend_symbol_type.SYMBOL_TYPE_OBJECT 5 9
      = none ∧
    backend_split_symbol (object_of_symbols (frame_table (some "f.c"))) 2 "G" 0x220
        backend_symbol_type.SYMBOL_TYPE_OBJECT 5 9
      = some (some 9, object_of_symbols
          [mk_symbol 1 "A" 0x100 0x10 (some "a.c"),
           { mk_symbol 2 "F" 0x200 0x20 (some "f.c") with sec := some 7 },
           { ptr := 9, name := "G", val := 0x220,
             type := backend_symbol_type.SYMBOL_TYPE_OBJECT, size := 0x20, flags := 5,
             sec := some 7, src := some "f.c" },
           mk_symbol 3 "B" 0x300 0x10 (some "b.c")]) := by
  decide

/-- C24, evaluated on the code: for the symbol F(val=0x200, size=0x40) without
a source file, the split at 0x100, a point in front of F, is the call
`strdup(NULL)`: there are no sizes after the split.  With a source file the new
symbol gets the size `0x40 - 0xFFFFFF00` modulo `2 ^ 64` and F keeps 0xFFFFFF00,
which add up to 0x40 modulo `2 ^ 64`. -/
theorem split_symbol_sizes_at_unvalidated_point :
    backend_split_symbol (object_of_symbols [split_F none]) 1 "G" 0x100
        backend_symbol_type.SYMBOL_TYPE_FUNCTION 0 2
      = none ∧
    backend_split_symbol (object_of_symbols [split_F (some "f.c")]) 1 "G" 0x100
        backend_symbol_type.SYMBOL_TYPE_FUNCTION 0 2
      = some (some 2, object_of_symbols
          [mk_symbol 1 "F" 0x200 0xFFFFFF00 (some "f.c"),
           mk_symbol 2 "G" 0x100 0xFFFFFFFF00000140 (some "f.c")]) ∧
    (0xFFFFFFFF00000140 + 0xFFFFFF00) % 2 ^ 64 = 0x40 := by
  decide

/-! ## `backend_get_first_symbol`, `backend_get_next_symbol` -/

/-- On a table with a first entry, `backend_get_first_symbol` returns it and
sets the cursor on it. -/
theorem get_first_symbol_of_cons (o : backend_object) (x : backend_symbol)
    (rest : List backend_symbol) :
    backend_get_first_symbol { o with symbol_table := some (x :: rest) }
      = some (some x,
          { o with symbol_table := some (x :: rest), iter_symbol := x :: rest }) :=
  rfl

/-- From a cursor on an entry, `backend_get_next_symbol` moves the cursor to the
next node and returns its entry, `NULL` behind the last entry. -/
theorem get_next_symbol_step (o : backend_object) (x : backend_symbol)
    (rest : List backend_symbol) :
    backend_get_next_symbol { o with iter_symbol := x :: rest }
      = some (rest.head?, { o with iter_symbol := rest }) := by
  cases rest <;> rfl

/-- On a table that exists and is empty, `backend_get_first_symbol` reads
through the `NULL` cursor. -/
theorem get_first_symbol_of_empty (o : backend_object) :
    backend_get_first_symbol { o with symbol_table := some [] } = none :=
  rfl

/-- C23, evaluated on the code: after the only symbol of a table is removed by
name the table exists and is empty, and `backend_get_first_symbol` reads
`iter_symbol->val` through the `NULL` cursor that `ll_iter_start` returns; it
does not return `NULL`.  On the table s10, s20, s30 the iteration yields the
three symbols in order and then `NULL`. -/
theorem get_first_symbol_on_emptied_table_is_undefined :
    backend_remove_symbol_by_name (object_of_symbols [mk_symbol 1 "a" 0x100 0 none]) "a"
        = (0, object_of_symbols []) ∧
      backend_get_first_symbol { symbol_table := some [] } = none ∧
      ∃ o1 o2 o3 o4 : backend_object,
        backend_get_first_symbol { symbol_table := some nearest_table }
            = some (some (mk_symbol 1 "s10" 10 0 none), o1) ∧
          backend_get_next_symbol o1 = some (some (mk_symbol 2 "s20" 20 0 none), o2) ∧
          backend_get_next_symbol o2 = some (some (mk_symbol 3 "s30" 30 0 none), o3) ∧
          backend_get_next_symbol o3 = some (none, o4) :=
  ⟨by decide, rfl, _, _, _, _, rfl, rfl, rfl, rfl⟩

end Backend
